import Mathlib

/-!
Verification of the meshfile library (jtsiomb/meshfile).

Shallow embedding of the parts of the library relevant to the checked
claims: the math kernel of src/util.c, the base64 decoder, the format
dispatcher and buffered line reader of src/meshfile.c, the scene-graph
node operations, the MTL material parser and OBJ writer of src/fmtobj.c,
and the name handling of the STL and JTF loaders.

C floats are modelled by exact rationals (the claims under scrutiny are
algebraic/structural, and all concrete inputs used are exactly
representable); C dynamic arrays by Lean lists (a NULL array pointer is
an empty/`none` value where the distinction matters); heap allocation is
assumed to succeed except where a claim is about allocation-failure
behaviour, in which case success flags are explicit parameters.
-/

namespace Meshfile

/-- 2-component vector, mirroring `mf_vec2`. -/
structure V2 where
  x : ℚ
  y : ℚ
deriving DecidableEq, Repr

/-- 3-component vector, mirroring `mf_vec3`. -/
structure V3 where
  x : ℚ
  y : ℚ
  z : ℚ
deriving DecidableEq, Repr

/-- 4-component vector, mirroring `mf_vec4` (also used for quaternions). -/
structure V4 where
  x : ℚ
  y : ℚ
  z : ℚ
  w : ℚ
deriving DecidableEq, Repr

/-! ## Math kernel (src/util.c)

A 4x4 matrix is a flat array of 16 scalars, modelled as a total function
from flat index to scalar (indices ≥ 16 are junk and never relied upon).
The library uses the column-major convention: flat index `4*col + row`.
-/

/-- Flat 4x4 matrix, mirroring `float m[16]`. -/
def MatF : Type := Nat → ℚ

/-- Identity matrix, mirroring `mf_id_matrix` (util.c:191). -/
def mf_id_matrix : MatF := fun n =>
  if n = 0 ∨ n = 5 ∨ n = 10 ∨ n = 15 then 1 else 0

/-- Translation matrix, mirroring `mf_trans_matrix` (util.c:197):
identity with the translation in entries 12..14. -/
def mf_trans_matrix (v : V3) : MatF := fun n =>
  if n = 12 then v.x else if n = 13 then v.y else if n = 14 then v.z
  else mf_id_matrix n

/-- Scale matrix, mirroring `mf_scale_matrix` (util.c:205). -/
def mf_scale_matrix (v : V3) : MatF := fun n =>
  if n = 0 then v.x else if n = 5 then v.y else if n = 10 then v.z
  else if n = 15 then 1 else 0

/-- Quaternion-to-matrix, mirroring `mf_quat_matrix` (util.c:214). -/
def mf_quat_matrix (q : V4) : MatF := fun n =>
  let xsq2 := 2 * q.x * q.x
  let ysq2 := 2 * q.y * q.y
  let zsq2 := 2 * q.z * q.z
  if n = 0 then 1 - ysq2 - zsq2
  else if n = 1 then 2 * q.x * q.y + 2 * q.w * q.z
  else if n = 2 then 2 * q.z * q.x - 2 * q.w * q.y
  else if n = 4 then 2 * q.x * q.y - 2 * q.w * q.z
  else if n = 5 then 1 - xsq2 - zsq2
  else if n = 6 then 2 * q.y * q.z + 2 * q.w * q.x
  else if n = 8 then 2 * q.z * q.x + 2 * q.w * q.y
  else if n = 9 then 2 * q.y * q.z - 2 * q.w * q.x
  else if n = 10 then 1 - xsq2 - ysq2
  else if n = 15 then 1
  else 0

/-- Matrix product, mirroring `mf_mult_matrix` (util.c:166):
`dest[4*i+j] = Σ_k b[4*i+k] * a[4*k+j]`.  In the column-major reading
this computes the mathematical product `A · B` (apply `b` first). -/
def mf_mult_matrix (a b : MatF) : MatF := fun n =>
  let i := n / 4
  let j := n % 4
  b (4 * i) * a j + b (4 * i + 1) * a (4 + j) +
    b (4 * i + 2) * a (8 + j) + b (4 * i + 3) * a (12 + j)

/-- PRS composition, mirroring `mf_prs_matrix` (util.c:237) call for call:
start from the rotation matrix, multiply the translation on the left,
then multiply the scale on the left. -/
def mf_prs_matrix (p : V3) (r : V4) (s : V3) : MatF :=
  let mat := mf_quat_matrix r
  let tmp := mf_trans_matrix p
  let mat := mf_mult_matrix tmp mat
  let tmp := mf_scale_matrix s
  mf_mult_matrix tmp mat

/-- Positional point transform, mirroring `mf_transform` (util.c:148):
`dest_r = Σ_c v_c * m[4*c+r] + m[12+r]`. -/
def mf_transform (m : MatF) (v : V3) : V3 :=
  { x := v.x * m 0 + v.y * m 4 + v.z * m 8 + m 12
    y := v.x * m 1 + v.y * m 5 + v.z * m 9 + m 13
    z := v.x * m 2 + v.y * m 6 + v.z * m 10 + m 14 }

/-- The matrix the claim (and §4.3 of the spec) prescribes for PRS
composition: the product translation · rotation · scale, written with
the same column-major product so that the scale acts first and the
translation last on a transformed point. -/
def trs_matrix_spec (p : V3) (r : V4) (s : V3) : MatF :=
  mf_mult_matrix (mf_trans_matrix p)
    (mf_mult_matrix (mf_quat_matrix r) (mf_scale_matrix s))

/-- C1: `mf_prs_matrix` composes in the order scale · translation ·
rotation, not translation · rotation · scale.  At position (1,0,0),
identity rotation and uniform scale 2, the code's matrix carries the
origin to (2,0,0) — the translation has been scaled, i.e. it did not
act last — whereas the matrix prescribed by the claim carries the
origin to (1,0,0).  The two matrices also differ literally at flat
entry 12. -/
theorem C1_prs_matrix_counterexample :
    mf_transform
        (mf_prs_matrix ⟨1, 0, 0⟩ ⟨0, 0, 0, 1⟩ ⟨2, 2, 2⟩) ⟨0, 0, 0⟩ =
      ⟨2, 0, 0⟩ ∧
    mf_transform
        (trs_matrix_spec ⟨1, 0, 0⟩ ⟨0, 0, 0, 1⟩ ⟨2, 2, 2⟩) ⟨0, 0, 0⟩ =
      ⟨1, 0, 0⟩ ∧
    mf_prs_matrix ⟨1, 0, 0⟩ ⟨0, 0, 0, 1⟩ ⟨2, 2, 2⟩ 12 = 2 ∧
    trs_matrix_spec ⟨1, 0, 0⟩ ⟨0, 0, 0, 1⟩ ⟨2, 2, 2⟩ 12 = 1 := by
  refine ⟨?_, ?_, ?_, ?_⟩ <;>
    simp [mf_prs_matrix, trs_matrix_spec, mf_mult_matrix, mf_quat_matrix,
      mf_trans_matrix, mf_scale_matrix, mf_id_matrix, mf_transform]

/-! ## Format dispatcher (src/meshfile.c:479, mf_load_userio)

The dispatcher sees the stream through the user-I/O interface only as a
seekable cursor: `seek(0, CUR)` records the offset, `seek(fpos, SET)`
rewinds.  The stream state it manipulates is therefore the offset; each
codec loader is an arbitrary function from stream to success flag and
resulting stream.  In this model `seek` always succeeds, as does the
default stdio-backed implementation (meshfile.c:1220).
-/

/-- Format tags from the save-flag format enum (meshfile.h:136). -/
def MF_FMT_OBJ : Nat := 1

/-- JTF format tag. -/
def MF_FMT_JTF : Nat := 2

/-- glTF format tag. -/
def MF_FMT_GLTF : Nat := 3

/-- 3DS format tag. -/
def MF_FMT_3DS : Nat := 4

/-- STL format tag. -/
def MF_FMT_STL : Nat := 5

/-- Stream state visible to the dispatcher: the file offset. -/
structure MStream where
  pos : Int
deriving DecidableEq, Repr

/-- A codec loader: consumes the stream, returns a success flag and the
stream state it leaves behind. -/
def Loader : Type := MStream → Bool × MStream

/-- Dispatch loop of `mf_load_userio` (meshfile.c:487-494): try each
codec in table order; a successful load ends the loop with the stream
wherever the loader left it; a failed load is followed by a seek back to
the recorded offset `fpos`.  Returns the successful format tag (or none
when every codec failed), the final stream, and the trace of
invocations as (format tag, offset at invocation) pairs. -/
def dispatchGo (fpos : Int) :
    List (Nat × Loader) → MStream → List (Nat × Int) →
      Option Nat × MStream × List (Nat × Int)
  | [], s, tr => (none, s, tr)
  | (tag, ld) :: rest, s, tr =>
    let r := ld s
    if r.1 then (some tag, r.2, tr ++ [(tag, s.pos)])
    else dispatchGo fpos rest ⟨fpos⟩ (tr ++ [(tag, s.pos)])

/-- `mf_load_userio` format trial (meshfile.c:479): record the offset
with `seek(0, CUR)`, then run the dispatch loop over the codec table. -/
def mf_load_userio (tbl : List (Nat × Loader)) (s : MStream) :
    Option Nat × MStream × List (Nat × Int) :=
  dispatchGo s.pos tbl s []

/-- The codec table of meshfile.c:34 (`filefmt`), with the loaders it
would hold supplied as parameters: the registration order is 3DS, JTF,
glTF, STL, OBJ. -/
def filefmtTable (l3ds ljtf lgltf lstl lobj : Loader) :
    List (Nat × Loader) :=
  [(MF_FMT_3DS, l3ds), (MF_FMT_JTF, ljtf), (MF_FMT_GLTF, lgltf),
   (MF_FMT_STL, lstl), (MF_FMT_OBJ, lobj)]

theorem dispatchGo_all_fail (fpos : Int) (tbl : List (Nat × Loader))
    (tr : List (Nat × Int))
    (h : ∀ e ∈ tbl, (e.2 ⟨fpos⟩).1 = false) :
    dispatchGo fpos tbl ⟨fpos⟩ tr =
      (none, ⟨fpos⟩, tr ++ tbl.map fun e => (e.1, fpos)) := by
  induction tbl generalizing tr with
  | nil => simp [dispatchGo]
  | cons e rest ih =>
    obtain ⟨tag, ld⟩ := e
    have hfail : (ld ⟨fpos⟩).1 = false := h (tag, ld) (by simp)
    have hrest : ∀ e ∈ rest, (e.2 ⟨fpos⟩).1 = false :=
      fun e he => h e (List.mem_cons_of_mem _ he)
    simp only [dispatchGo, hfail, Bool.false_eq_true, if_false]
    rw [ih (tr ++ [(tag, fpos)]) hrest]
    simp

theorem dispatchGo_first_success (fpos : Int)
    (pre : List (Nat × Loader)) (e : Nat × Loader)
    (post : List (Nat × Loader)) (tr : List (Nat × Int))
    (hpre : ∀ x ∈ pre, (x.2 ⟨fpos⟩).1 = false)
    (hsucc : (e.2 ⟨fpos⟩).1 = true) :
    dispatchGo fpos (pre ++ e :: post) ⟨fpos⟩ tr =
      (some e.1, (e.2 ⟨fpos⟩).2,
        tr ++ (pre ++ [e]).map fun x => (x.1, fpos)) := by
  induction pre generalizing tr with
  | nil =>
    obtain ⟨tag, ld⟩ := e
    have hsucc' : (ld ⟨fpos⟩).1 = true := hsucc
    simp only [List.nil_append, dispatchGo, hsucc', if_true]
    simp
  | cons x rest ih =>
    obtain ⟨tag, ld⟩ := x
    have hfail : (ld ⟨fpos⟩).1 = false := hpre (tag, ld) (by simp)
    have hrest : ∀ x ∈ rest, (x.2 ⟨fpos⟩).1 = false :=
      fun x hx => hpre x (List.mem_cons_of_mem _ hx)
    simp only [List.cons_append, dispatchGo, hfail, Bool.false_eq_true,
      if_false, List.append_eq]
    rw [ih (tr ++ [(tag, fpos)]) hrest]
    simp

/-- C2: on load, `mf_load_userio` records the stream offset before
dispatch, tries the codecs in exactly the table order 3DS, JTF, glTF,
STL, OBJ — every trial starting at the recorded offset, i.e. the stream
is rewound after each failing loader — stops at the first loader that
succeeds (leaving the stream where that loader left it, and never
invoking the later codecs), and reports overall failure with the stream
rewound once more when all five loaders fail. -/
theorem C2_load_dispatch (l3ds ljtf lgltf lstl lobj : Loader)
    (s0 : MStream) :
    (∀ pre e post,
        filefmtTable l3ds ljtf lgltf lstl lobj = pre ++ e :: post →
        (∀ x ∈ pre, (x.2 s0).1 = false) → (e.2 s0).1 = true →
        mf_load_userio (filefmtTable l3ds ljtf lgltf lstl lobj) s0 =
          (some e.1, (e.2 s0).2,
            (pre ++ [e]).map fun x => (x.1, s0.pos))) ∧
    ((∀ x ∈ filefmtTable l3ds ljtf lgltf lstl lobj,
        (x.2 s0).1 = false) →
      mf_load_userio (filefmtTable l3ds ljtf lgltf lstl lobj) s0 =
        (none, ⟨s0.pos⟩,
          [(MF_FMT_3DS, s0.pos), (MF_FMT_JTF, s0.pos),
           (MF_FMT_GLTF, s0.pos), (MF_FMT_STL, s0.pos),
           (MF_FMT_OBJ, s0.pos)])) := by
  constructor
  · intro pre e post hsplit hpre hsucc
    unfold mf_load_userio
    rw [hsplit]
    exact (dispatchGo_first_success s0.pos pre e post [] hpre
      hsucc).trans (by simp)
  · intro hall
    unfold mf_load_userio
    exact (dispatchGo_all_fail s0.pos _ [] hall).trans
      (by simp [filefmtTable])

/-- Witness for C2 at concrete loaders: 3DS and JTF fail, glTF succeeds
(consuming 42 bytes), so the trial ends at glTF with trace
3DS, JTF, glTF, all invoked at the recorded offset 10. -/
theorem C2_load_dispatch_witness :
    mf_load_userio
        (filefmtTable (fun s => (false, ⟨s.pos + 7⟩))
          (fun s => (false, ⟨s.pos + 3⟩))
          (fun s => (true, ⟨s.pos + 42⟩))
          (fun s => (false, ⟨s.pos⟩)) (fun s => (false, ⟨s.pos⟩)))
        ⟨10⟩ =
      (some MF_FMT_GLTF, ⟨52⟩,
        [(MF_FMT_3DS, 10), (MF_FMT_JTF, 10), (MF_FMT_GLTF, 10)]) := by
  have h :=
    (C2_load_dispatch (fun s => (false, ⟨s.pos + 7⟩))
        (fun s => (false, ⟨s.pos + 3⟩)) (fun s => (true, ⟨s.pos + 42⟩))
        (fun s => (false, ⟨s.pos⟩)) (fun s => (false, ⟨s.pos⟩)) ⟨10⟩).1
      [(MF_FMT_3DS, fun s => (false, ⟨s.pos + 7⟩)),
       (MF_FMT_JTF, fun s => (false, ⟨s.pos + 3⟩))]
      (MF_FMT_GLTF, fun s => (true, ⟨s.pos + 42⟩))
      [(MF_FMT_STL, fun s => (false, ⟨s.pos⟩)),
       (MF_FMT_OBJ, fun s => (false, ⟨s.pos⟩))]
      rfl (by decide) rfl
  simpa using h

/-! ## Scene-graph node operations (src/meshfile.c)

Nodes are identified by numbers; the parent pointers and child lists
live in a `World`.  The scene's `nodes`/`topnodes` dynamic arrays are
lists of node identifiers.  Allocation succeeds except in the
`mf_add_node_push` variant, where the outcome of each `mf_dynarr_push`
is an explicit flag; the name assertion of `mf_add_node` is modelled
with the loaders (see the STL/JTF section below), names being
irrelevant to the graph shape.
-/

/-- Parent pointers and child lists of all nodes, mirroring the
`parent`/`child` fields of `struct mf_node` (meshfile.h:84). -/
structure World where
  parent : Nat → Option Nat
  child : Nat → List Nat

/-- The scene's `nodes` and `topnodes` dynamic arrays
(struct mf_meshfile, mfpriv.h). -/
structure SceneNodes where
  nodes : List Nat
  topnodes : List Nat
deriving DecidableEq, Repr

/-- Removal step of `mf_node_remove_child` (meshfile.c:1082-1087): the
first occurrence of `c` is overwritten with the last element and the
array is popped; an absent `c` leaves the list unchanged. -/
def swapRemove (l : List Nat) (c : Nat) : List Nat :=
  match l.findIdx? (· = c) with
  | none => l
  | some i => (l.set i (l.getLastD 0)).dropLast

/-- `mf_node_remove_child` (meshfile.c:1077): remove `c` from `n`'s
child list; clear `c`'s parent only if it pointed at `n`. -/
def mf_node_remove_child (w : World) (n c : Nat) : World :=
  let w1 : World :=
    { w with child := fun m => if m = n then swapRemove (w.child n) c
                               else w.child m }
  if w1.parent c = some n then
    { w1 with parent := fun m => if m = c then none else w1.parent m }
  else w1

/-- `mf_node_add_child` (meshfile.c:1060): append `c` to `n`'s child
list, detach `c` from its previous parent if any, set `c`'s parent to
`n`.  The scene's top-level list is not consulted. -/
def mf_node_add_child (w : World) (n c : Nat) : World :=
  let w1 : World :=
    { w with child := fun m => if m = n then w.child n ++ [c]
                               else w.child m }
  let w2 := match w1.parent c with
            | some q => mf_node_remove_child w1 q c
            | none => w1
  { w2 with parent := fun m => if m = c then some n else w2.parent m }

/-- `mf_add_node` success path (meshfile.c:395): append to the node
list, and to the top-level list iff the node has no parent. -/
def mf_add_node (sc : SceneNodes) (w : World) (n : Nat) : SceneNodes :=
  let sc1 : SceneNodes := { sc with nodes := sc.nodes ++ [n] }
  if w.parent n = none then
    { sc1 with topnodes := sc1.topnodes ++ [n] }
  else sc1

/-- `mf_add_node` with the outcome of each `mf_dynarr_push` explicit
(meshfile.c:395-414): `ok1` is the push onto `nodes`, `ok2` the push
onto `topnodes`; when the second push fails the node is popped back off
`nodes` before failure is returned. -/
def mf_add_node_push (sc : SceneNodes) (w : World) (n : Nat)
    (ok1 ok2 : Bool) : Bool × SceneNodes :=
  if ok1 = false then (false, sc)
  else
    let sc1 : SceneNodes := { sc with nodes := sc.nodes ++ [n] }
    if w.parent n = none then
      if ok2 = false then (false, { sc1 with nodes := sc1.nodes.dropLast })
      else (true, { sc1 with topnodes := sc1.topnodes ++ [n] })
    else (true, sc1)

theorem mf_add_node_push_ok (sc : SceneNodes) (w : World) (n : Nat) :
    mf_add_node_push sc w n true true = (true, mf_add_node sc w n) := by
  unfold mf_add_node_push mf_add_node
  by_cases h : w.parent n = none <;> simp [h]

/-- Top-level invariant of spec §3 invariant 1: a node is in the
scene's top-level list iff its parent reference is empty (stated over
the nodes the scene holds). -/
def TopInv (sc : SceneNodes) (w : World) : Prop :=
  (∀ n ∈ sc.topnodes, w.parent n = none) ∧
  (∀ n ∈ sc.nodes, w.parent n = none → n ∈ sc.topnodes)

/-- A sequence of `mf_add_node` operations. -/
def applyAddNodes (w : World) (sc : SceneNodes) (ids : List Nat) :
    SceneNodes :=
  ids.foldl (fun s i => mf_add_node s w i) sc

/-- The world with no links, and the world after
`mf_node_add_child 1 0`. -/
def emptyWorld : World := ⟨fun _ => none, fun _ => []⟩

/-- C3 counterexample: add node 0 (parentless) to an empty scene — it
enters the top-level list — then give it parent 1 via
`mf_node_add_child`.  The top-level list is not updated, so node 0 is
top-level with a non-empty parent reference: the iff invariant fails
after this sequence of the three scene-graph operations. -/
theorem C3_topnodes_counterexample :
    ¬ TopInv (mf_add_node ⟨[], []⟩ emptyWorld 0)
        (mf_node_add_child emptyWorld 1 0) := by
  intro h
  have h0 : (0 : Nat) ∈ (mf_add_node ⟨[], []⟩ emptyWorld 0).topnodes := by
    simp [mf_add_node, emptyWorld]
  have := h.1 0 h0
  simp [mf_node_add_child, mf_node_remove_child, emptyWorld] at this

/-- C3 amended: the iff invariant is established and preserved by
`mf_add_node` itself — after any sequence of `mf_add_node` operations
(no reparenting of already-added nodes), every top-level node has an
empty parent reference and every held node with an empty parent
reference is top-level.  `mf_node_add_child` and
`mf_node_remove_child`, however, never touch the scene's top-level
list, so the invariant can be broken by reparenting a node after it was
added (see the counterexample). -/
theorem C3_add_node_preserves_topinv (w : World) (sc : SceneNodes)
    (ids : List Nat) (h : TopInv sc w) :
    TopInv (applyAddNodes w sc ids) w := by
  induction ids generalizing sc with
  | nil => exact h
  | cons i rest ih =>
    refine ih _ ?_
    unfold mf_add_node
    by_cases hp : w.parent i = none
    · simp only [hp, if_true]
      refine ⟨?_, ?_⟩
      · intro n hn
        rcases List.mem_append.1 hn with hn | hn
        · exact h.1 n hn
        · simp only [List.mem_singleton] at hn; subst hn; exact hp
      · intro n hn hpn
        rcases List.mem_append.1 hn with hn | hn
        · exact List.mem_append.2 (Or.inl (h.2 n hn hpn))
        · simp only [List.mem_singleton] at hn; subst hn
          exact List.mem_append.2 (Or.inr (by simp))
    · simp only [hp, if_false]
      refine ⟨h.1, ?_⟩
      intro n hn hpn
      rcases List.mem_append.1 hn with hn | hn
      · exact h.2 n hn hpn
      · simp only [List.mem_singleton] at hn; subst hn
        exact absurd hpn hp

/-- Witness for the amended C3: starting from the empty scene (which
satisfies the invariant) and adding nodes 0, 1, 2 where node 2 has
parent 0, the invariant holds. -/
theorem C3_add_node_preserves_topinv_witness :
    TopInv
      (applyAddNodes
        ⟨fun n => if n = 2 then some 0 else none, fun _ => []⟩
        ⟨[], []⟩ [0, 1, 2])
      ⟨fun n => if n = 2 then some 0 else none, fun _ => []⟩ :=
  C3_add_node_preserves_topinv _ _ _
    ⟨fun n hn => by simp at hn, fun n hn => by simp at hn⟩

/-- C10: `mf_add_node` is atomic on failure — whenever it reports
failure (either push failing), the scene's node list and top-level list
are exactly as they were before the call, the node pushed onto the node
list having been popped back off when the top-level push failed. -/
theorem C10_add_node_atomic (sc : SceneNodes) (w : World) (n : Nat)
    (ok1 ok2 : Bool) (h : (mf_add_node_push sc w n ok1 ok2).1 = false) :
    (mf_add_node_push sc w n ok1 ok2).2 = sc := by
  unfold mf_add_node_push at h ⊢
  cases ok1 with
  | false => simp
  | true =>
    simp only [Bool.true_eq_false, if_false] at h ⊢
    by_cases hp : w.parent n = none
    · simp only [hp, if_true] at h ⊢
      cases ok2 with
      | false => simp [List.dropLast_concat]
      | true => simp at h
    · simp only [hp, if_false] at h
      exact Bool.noConfusion h

/-- Witness for C10: with node list [5] and the top-level push failing,
`mf_add_node` fails and leaves the scene exactly ⟨[5], [5]⟩. -/
theorem C10_add_node_atomic_witness :
    (mf_add_node_push ⟨[5], [5]⟩ emptyWorld 7 true false).1 = false ∧
    (mf_add_node_push ⟨[5], [5]⟩ emptyWorld 7 true false).2 =
      ⟨[5], [5]⟩ :=
  ⟨by simp [mf_add_node_push, emptyWorld],
   C10_add_node_atomic ⟨[5], [5]⟩ emptyWorld 7 true false
     (by simp [mf_add_node_push, emptyWorld])⟩

/-! ## Buffered line reader (src/meshfile.c:1235, mf_fgets)

The stream is the list of bytes still to be read; `mf_fgetc`
(meshfile.c:1226) yields the head or −1 at end of stream.  `mf_fgets`
is the loop of meshfile.c:1240-1250: characters are consumed until a
newline or EOF; each consumed character is stored only while fewer than
`sz − 1` are stored (`dest < endp`); the stored characters are returned
(null-termination is implicit in returning exactly the stored list),
and absent is returned when EOF was hit with nothing stored.
-/

/-- Loop of `mf_fgets`: `szm1` is `sz - 1`, `stored` the characters
written to the buffer so far.  Returns the `fgets` result (the stored
characters, or none) and the unread remainder of the stream. -/
def mf_fgets_go (szm1 : Nat) (stored : List Char) :
    List Char → Option (List Char) × List Char
  | [] => (if stored = [] then none else some stored, [])
  | c :: rest =>
    let stored' := if stored.length < szm1 then stored ++ [c] else stored
    if c = '\n' then (some stored', rest)
    else mf_fgets_go szm1 stored' rest

/-- `mf_fgets` with buffer size `sz` (requires `sz ≥ 1`, as in C where
`endp = buf + sz - 1`). -/
def mf_fgets (sz : Nat) (s : List Char) :
    Option (List Char) × List Char :=
  mf_fgets_go (sz - 1) [] s

theorem mf_fgets_go_newline (szm1 : Nat) (pre : List Char) :
    ∀ (stored post : List Char), '\n' ∉ pre → stored.length ≤ szm1 →
      mf_fgets_go szm1 stored (pre ++ '\n' :: post) =
        (some ((stored ++ pre ++ ['\n']).take szm1), post) := by
  induction pre with
  | nil =>
    intro stored post _ hlen
    by_cases h : stored.length < szm1
    · have ht : (stored ++ ['\n']).take szm1 = stored ++ ['\n'] :=
        List.take_of_length_le (by simp; omega)
      simp [mf_fgets_go, h, ht]
    · have heq : stored.length = szm1 := by omega
      have ht : (stored ++ ['\n']).take szm1 = stored := by
        rw [← heq]; exact List.take_left ..
      simp [mf_fgets_go, h, ht]
  | cons c pre ih =>
    intro stored post hnl hnlen
    have hc : c ≠ '\n' := fun h => hnl (h ▸ List.mem_cons_self c pre)
    have hnl' : '\n' ∉ pre := fun h => hnl (List.mem_cons_of_mem _ h)
    by_cases h : stored.length < szm1
    · have hrec := ih (stored ++ [c]) post hnl' (by simp; omega)
      simp only [mf_fgets_go, if_neg hc, h, if_true, List.cons_append,
        List.append_eq]
      rw [hrec]
      simp
    · have heq : stored.length = szm1 := by omega
      have hrec := ih stored post hnl' hnlen
      simp only [mf_fgets_go, if_neg hc, h, if_false, List.cons_append,
        List.append_eq]
      rw [hrec]
      have h1 : (stored ++ (pre ++ ['\n'])).take szm1 = stored := by
        rw [← heq]; exact List.take_left ..
      have h2 : (stored ++ (c :: (pre ++ ['\n']))).take szm1 = stored := by
        rw [← heq]; exact List.take_left ..
      simp only [List.append_assoc, List.cons_append] at h1 h2 ⊢
      rw [h1, h2]

theorem mf_fgets_go_eof (szm1 : Nat) (s : List Char) :
    ∀ (stored : List Char), '\n' ∉ s → stored.length ≤ szm1 →
      mf_fgets_go szm1 stored s =
        (if (stored ++ s).take szm1 = [] then none
         else some ((stored ++ s).take szm1), []) := by
  induction s with
  | nil =>
    intro stored _ hlen
    have ht : stored.take szm1 = stored := List.take_of_length_le hlen
    simp [mf_fgets_go, ht]
  | cons c rest ih =>
    intro stored hnl hlen
    have hc : c ≠ '\n' := fun h => hnl (h ▸ List.mem_cons_self c rest)
    have hnl' : '\n' ∉ rest := fun h => hnl (List.mem_cons_of_mem _ h)
    by_cases h : stored.length < szm1
    · have hrec := ih (stored ++ [c]) hnl' (by simp; omega)
      simp only [mf_fgets_go, if_neg hc, h, if_true, List.append_eq]
      rw [hrec]
      simp
    · have heq : stored.length = szm1 := by omega
      have hrec := ih stored hnl' hlen
      simp only [mf_fgets_go, if_neg hc, h, if_false, List.append_eq]
      rw [hrec]
      have h1 : (stored ++ rest).take szm1 = stored := by
        rw [← heq]; exact List.take_left ..
      have h2 : (stored ++ c :: rest).take szm1 = stored := by
        rw [← heq]; exact List.take_left ..
      rw [h1, h2]

/-- C9 counterexample: with `sz = 3` (capacity 2) and the stream
"abcd\nX", `mf_fgets` stores "ab" but keeps consuming: it eats the
whole line through the newline, leaving only "X" unread — not
"cd\nX" as the claim's "bytes beyond the first sz−1 are left unread in
the stream" requires. -/
theorem C9_fgets_counterexample :
    mf_fgets 3 "abcd\nX".toList = (some ['a', 'b'], ['X']) ∧
    (mf_fgets 3 "abcd\nX".toList).2 ≠ 'c' :: 'd' :: '\n' :: ['X'] := by
  refine ⟨by decide, by decide⟩

/-- C9 amended: for `sz ≥ 2`, `mf_fgets` consumes bytes up to and
including the first newline (or up to EOF when the stream holds no
newline), stores the first `sz − 1` of the consumed bytes and discards
the rest — excess bytes of an over-long line are read and thrown away,
not left in the stream — null-terminates what it stored, and returns
absent exactly when EOF is hit with no byte consumed. -/
theorem C9_fgets_amended (sz : Nat) (hsz : 2 ≤ sz) :
    (∀ pre post : List Char, '\n' ∉ pre →
      mf_fgets sz (pre ++ '\n' :: post) =
        (some ((pre ++ ['\n']).take (sz - 1)), post)) ∧
    (∀ s : List Char, '\n' ∉ s → s ≠ [] →
      mf_fgets sz s = (some (s.take (sz - 1)), [])) ∧
    mf_fgets sz [] = (none, []) := by
  refine ⟨?_, ?_, rfl⟩
  · intro pre post hnl
    unfold mf_fgets
    rw [mf_fgets_go_newline (sz - 1) pre [] post hnl (by simp)]
    simp
  · intro s hnl hne
    unfold mf_fgets
    rw [mf_fgets_go_eof (sz - 1) s [] hnl (by simp)]
    simp only [List.nil_append]
    have : s.take (sz - 1) ≠ [] := by
      cases s with
      | nil => exact absurd rfl hne
      | cons c rest =>
        have : sz - 1 ≠ 0 := by omega
        cases h : sz - 1 with
        | zero => exact absurd h this
        | succ k => simp [List.take]
    simp [this]

/-- Witness for the amended C9 at `sz = 3`: the stream "abcd\nX" is
consumed through the newline, "ab" is stored, "X" remains; a
newline-free nonempty stream "ab" yields "ab" with nothing left; the
empty stream yields absent. -/
theorem C9_fgets_amended_witness :
    mf_fgets 3 ("abcd".toList ++ '\n' :: ['X']) =
      (some (("abcd".toList ++ ['\n']).take 2), ['X']) ∧
    mf_fgets 3 "ab".toList = (some ("ab".toList.take 2), []) ∧
    mf_fgets 3 [] = (none, []) :=
  ⟨(C9_fgets_amended 3 (by omega)).1 "abcd".toList ['X'] (by decide),
   (C9_fgets_amended 3 (by omega)).2.1 "ab".toList (by decide)
     (by decide),
   (C9_fgets_amended 3 (by omega)).2.2⟩

/-! ## Base64 decoder (src/util.c:26-109)

Bytes are naturals below 256.  The allocated output buffer is a list of
`Option Nat` cells, `none` standing for a malloc-fresh (unwritten)
cell; the decoder's guarded store `if(dest < end) *dest = v` is a
`List.set`, which is a no-op out of range exactly like the guard.  The
`unsigned char acc` accumulator is a natural reduced mod 256 at each
assignment.
-/

/-- `b64bits` (util.c:94): 6-bit value of a base64 alphabet character;
none for every other character (whitespace, '=', anything else). -/
def b64bits (c : Char) : Option Nat :=
  if 'A' ≤ c ∧ c ≤ 'Z' then some (c.toNat - 'A'.toNat)
  else if 'a' ≤ c ∧ c ≤ 'z' then some (c.toNat - 'a'.toNat + 26)
  else if '0' ≤ c ∧ c ≤ '9' then some (c.toNat - '0'.toNat + 52)
  else if c = '+' then some 62
  else if c = '/' then some 63
  else none

/-- Number of trailing '=' characters, as counted by the
`while(end > s && *--end == '=') len--` loop of `mf_calc_b64_size`. -/
def trailingEq (s : List Char) : Nat :=
  (s.reverse.takeWhile (· = '=')).length

/-- `mf_calc_b64_size` (util.c:26): (length minus trailing pads) · 3/4. -/
def mf_calc_b64_size (s : List Char) : Nat :=
  (s.length - trailingEq s) * 3 / 4

/-- Decoder state: accumulator, group index, output cursor, buffer. -/
structure B64St where
  acc : Nat
  gidx : Nat
  dest : Nat
  buf : List (Option Nat)
deriving DecidableEq, Repr

/-- One iteration of the decode loop of util.c:57-82 for a character in
the base64 alphabet, switching on `gidx++ & 3`. -/
def b64valStep (st : B64St) (bits : Nat) : B64St :=
  let g := st.gidx % 4
  if g = 0 then
    { st with
      gidx := st.gidx + 1
      acc := bits <<< 2 % 256 }
  else if g = 1 then
    { st with
      gidx := st.gidx + 1
      buf := st.buf.set st.dest (some (st.acc ||| bits >>> 4))
      dest := st.dest + 1
      acc := bits <<< 4 % 256 }
  else if g = 2 then
    { st with
      gidx := st.gidx + 1
      buf := st.buf.set st.dest (some (st.acc ||| bits >>> 2))
      dest := st.dest + 1
      acc := bits <<< 6 % 256 }
  else
    { st with
      gidx := st.gidx + 1
      buf := st.buf.set st.dest (some (st.acc ||| bits))
      dest := st.dest + 1 }

/-- One iteration of the decode loop for an arbitrary character:
characters outside the alphabet are skipped (`continue`). -/
def b64step (st : B64St) (c : Char) : B64St :=
  match b64bits c with
  | none => st
  | some bits => b64valStep st bits

/-- `mf_b64decode` called without a user buffer (util.c:34): allocate
`mf_calc_b64_size` cells, run the loop, and if the group index is not a
multiple of 4 store the leftover accumulator (guarded) and advance the
cursor once more.  Returns the buffer and the reported byte count
`dest - buf`. -/
def mf_b64decode (str : List Char) : List (Option Nat) × Nat :=
  let sz := mf_calc_b64_size str
  let st := str.foldl b64step ⟨0, 0, 0, List.replicate sz none⟩
  if st.gidx % 4 ≠ 0 then
    (st.buf.set st.dest (some st.acc), st.dest + 1)
  else (st.buf, st.dest)

/-- Modelled from the spec: the standard base64 alphabet character for
a 6-bit value. -/
def b64chr (v : Nat) : Char :=
  if v < 26 then Char.ofNat (65 + v)
  else if v < 52 then Char.ofNat (97 + v - 26)
  else if v < 62 then Char.ofNat (48 + v - 52)
  else if v = 62 then '+'
  else '/'

/-- Modelled from the spec: the 6-bit values of the standard base64
encoding of a byte string (grouping bytes in threes, encoder padding
bits zero). -/
def b64digitVals : List Nat → List Nat
  | [] => []
  | [a] => [a / 4, a % 4 * 16]
  | [a, b] => [a / 4, a % 4 * 16 + b / 16, b % 16 * 4]
  | a :: b :: c :: rest =>
    a / 4 :: (a % 4 * 16 + b / 16) :: (b % 16 * 4 + c / 64) :: c % 64 ::
      b64digitVals rest

/-- Modelled from the spec (the library has no encoder): a valid base64
encoding of `s`, terminated by one or two '=' pads as the remainder
requires. -/
def b64encode (s : List Nat) : List Char :=
  (b64digitVals s).map b64chr ++
    (if s.length % 3 = 1 then ['=', '=']
     else if s.length % 3 = 2 then ['='] else [])

/-- Sequential stores of the decoded bytes, starting at cursor `d`. -/
def writeList (buf : List (Option Nat)) (d : Nat) :
    List Nat → List (Option Nat)
  | [] => buf
  | b :: bs => writeList (buf.set d (some b)) (d + 1) bs

theorem b64step_foldl (e : List Char) :
    ∀ st : B64St, e.foldl b64step st =
      (e.filterMap b64bits).foldl b64valStep st := by
  induction e with
  | nil => intro st; rfl
  | cons c rest ih =>
    intro st
    cases h : b64bits c with
    | none => simp [List.foldl, b64step, h, List.filterMap_cons, ih]
    | some v => simp [List.foldl, b64step, h, List.filterMap_cons, ih]

theorem b64bits_b64chr (v : Nat) (h : v < 64) :
    b64bits (b64chr v) = some v := by
  revert h; revert v; decide

theorem b64digitVals_lt (s : List Nat) (hb : ∀ b ∈ s, b < 256) :
    ∀ v ∈ b64digitVals s, v < 64 := by
  induction s using b64digitVals.induct with
  | case1 => simp [b64digitVals]
  | case2 a =>
    have := hb a (by simp)
    simp only [b64digitVals, List.mem_cons, List.mem_singleton]
    rintro v (rfl | rfl | h)
    · omega
    · omega
    · simp at h
  | case3 a b =>
    have ha := hb a (by simp)
    have hb' := hb b (by simp)
    simp only [b64digitVals, List.mem_cons, List.mem_singleton]
    rintro v (rfl | rfl | rfl | h)
    · omega
    · omega
    · omega
    · simp at h
  | case4 a b c rest ih =>
    have ha := hb a (by simp)
    have hb' := hb b (by simp)
    have hc := hb c (by simp)
    have hrest : ∀ x ∈ rest, x < 256 := fun x hx => hb x (by simp [hx])
    simp only [b64digitVals, List.mem_cons]
    rintro v (rfl | rfl | rfl | rfl | h)
    · omega
    · omega
    · omega
    · omega
    · exact ih hrest v h

theorem b64encode_filterMap (s : List Nat) (hb : ∀ b ∈ s, b < 256) :
    (b64encode s).filterMap b64bits = b64digitVals s := by
  have hpad : ∀ L : List Char, (∀ c ∈ L, c = '=') →
      L.filterMap b64bits = [] := by
    intro L hL
    induction L with
    | nil => rfl
    | cons c rest ih =>
      have hc : c = '=' := hL c (by simp)
      subst hc
      simp only [List.filterMap_cons]
      rw [show b64bits '=' = none from by decide]
      exact ih fun c hc => hL c (by simp [hc])
  have hmap : ∀ L : List Nat, (∀ v ∈ L, v < 64) →
      (L.map b64chr).filterMap b64bits = L := by
    intro L hL
    induction L with
    | nil => rfl
    | cons v rest ih =>
      simp only [List.map_cons, List.filterMap_cons,
        b64bits_b64chr v (hL v (by simp))]
      rw [ih fun v hv => hL v (by simp [hv])]
  unfold b64encode
  rw [List.filterMap_append, hmap _ (b64digitVals_lt s hb),
    hpad _ (by intro c hc; split at hc <;> simp_all),
    List.append_nil]

theorem b64digitVals_length (s : List Nat) :
    (b64digitVals s).length =
      s.length / 3 * 4 +
        (if s.length % 3 = 0 then 0 else s.length % 3 + 1) := by
  induction s using b64digitVals.induct with
  | case1 => simp [b64digitVals]
  | case2 a => simp [b64digitVals]
  | case3 a b => simp [b64digitVals]
  | case4 a b c rest ih =>
    simp only [b64digitVals, List.length_cons, ih, List.length_cons]
    have h3 : (rest.length + 1 + 1 + 1) / 3 = rest.length / 3 + 1 := by
      omega
    have h4 : (rest.length + 1 + 1 + 1) % 3 = rest.length % 3 := by
      omega
    rw [h3, h4]
    ring

set_option maxRecDepth 4000 in
/-- Disjoint-bit reassembly fact, checked over all 256 byte values. -/
theorem b64_lor_a (a : Nat) (h : a < 256) : a / 4 * 4 ||| a % 4 = a := by
  revert h; revert a; decide

set_option maxRecDepth 4000 in
/-- Disjoint-bit reassembly fact for the middle byte. -/
theorem b64_lor_b (b : Nat) (h : b < 256) :
    b / 16 * 16 ||| b % 16 = b := by
  revert h; revert b; decide

set_option maxRecDepth 4000 in
/-- Disjoint-bit reassembly fact for the last byte. -/
theorem b64_lor_c (c : Nat) (h : c < 256) :
    c / 64 * 64 ||| c % 64 = c := by
  revert h; revert c; decide

/-- Decoding one full group of four 6-bit values reassembles the three
source bytes and stores them at the cursor, leaving the group index
back at a multiple of 4. -/
theorem b64_group (st : B64St) (a b c : Nat) (ha : a < 256)
    (hb : b < 256) (hc : c < 256) (hg : st.gidx % 4 = 0) :
    [a / 4, a % 4 * 16 + b / 16, b % 16 * 4 + c / 64, c % 64].foldl
        b64valStep st =
      { acc := c / 64 * 64, gidx := st.gidx + 4, dest := st.dest + 3,
        buf := ((st.buf.set st.dest (some a)).set (st.dest + 1)
          (some b)).set (st.dest + 2) (some c) } := by
  have hg1 : (st.gidx + 1) % 4 = 1 := by omega
  have hg2 : (st.gidx + 1 + 1) % 4 = 2 := by omega
  have hg2' : (st.gidx + 2) % 4 = 2 := by omega
  have hg3 : (st.gidx + 1 + 1 + 1) % 4 = 3 := by omega
  have hg3' : (st.gidx + 3) % 4 = 3 := by omega
  have f1 : (a / 4) <<< 2 % 256 = a / 4 * 4 := by
    rw [Nat.shiftLeft_eq, show (2 : Nat) ^ 2 = 4 from rfl]; omega
  have f2 : a / 4 * 4 ||| (a % 4 * 16 + b / 16) >>> 4 = a := by
    rw [Nat.shiftRight_eq_div_pow, show (2 : Nat) ^ 4 = 16 from rfl,
      show (a % 4 * 16 + b / 16) / 16 = a % 4 from by omega]
    exact b64_lor_a a ha
  have f3 : (a % 4 * 16 + b / 16) <<< 4 % 256 = b / 16 * 16 := by
    rw [Nat.shiftLeft_eq, show (2 : Nat) ^ 4 = 16 from rfl]; omega
  have f4 : b / 16 * 16 ||| (b % 16 * 4 + c / 64) >>> 2 = b := by
    rw [Nat.shiftRight_eq_div_pow, show (2 : Nat) ^ 2 = 4 from rfl,
      show (b % 16 * 4 + c / 64) / 4 = b % 16 from by omega]
    exact b64_lor_b b hb
  have f5 : (b % 16 * 4 + c / 64) <<< 6 % 256 = c / 64 * 64 := by
    rw [Nat.shiftLeft_eq, show (2 : Nat) ^ 6 = 64 from rfl]; omega
  have f6 : c / 64 * 64 ||| c % 64 = c := b64_lor_c c hc
  simp only [List.foldl_cons, List.foldl_nil, b64valStep]
  simp [hg, hg1, hg2, hg2', hg3, hg3', f1, f2, f3, f4, f5, f6,
    Nat.add_assoc]

/-- Decoding the two 6-bit values of a single trailing byte stores that
byte and leaves a zero accumulator. -/
theorem b64_tail1 (st : B64St) (a : Nat) (ha : a < 256)
    (hg : st.gidx % 4 = 0) :
    [a / 4, a % 4 * 16].foldl b64valStep st =
      { acc := 0, gidx := st.gidx + 2, dest := st.dest + 1,
        buf := st.buf.set st.dest (some a) } := by
  have hg1 : (st.gidx + 1) % 4 = 1 := by omega
  have f1 : (a / 4) <<< 2 % 256 = a / 4 * 4 := by
    rw [Nat.shiftLeft_eq, show (2 : Nat) ^ 2 = 4 from rfl]; omega
  have f2 : a / 4 * 4 ||| (a % 4 * 16) >>> 4 = a := by
    rw [Nat.shiftRight_eq_div_pow, show (2 : Nat) ^ 4 = 16 from rfl,
      show a % 4 * 16 / 16 = a % 4 from by omega]
    exact b64_lor_a a ha
  have f3 : (a % 4 * 16) <<< 4 % 256 = 0 := by
    rw [Nat.shiftLeft_eq, show (2 : Nat) ^ 4 = 16 from rfl]; omega
  simp only [List.foldl_cons, List.foldl_nil, b64valStep]
  simp [hg, hg1, f1, f2, f3, Nat.add_assoc]

/-- Decoding the three 6-bit values of two trailing bytes stores both
bytes and leaves a zero accumulator. -/
theorem b64_tail2 (st : B64St) (a b : Nat) (ha : a < 256)
    (hb : b < 256) (hg : st.gidx % 4 = 0) :
    [a / 4, a % 4 * 16 + b / 16, b % 16 * 4].foldl b64valStep st =
      { acc := 0, gidx := st.gidx + 3, dest := st.dest + 2,
        buf := (st.buf.set st.dest (some a)).set (st.dest + 1)
          (some b) } := by
  have hg1 : (st.gidx + 1) % 4 = 1 := by omega
  have hg2 : (st.gidx + 1 + 1) % 4 = 2 := by omega
  have hg2' : (st.gidx + 2) % 4 = 2 := by omega
  have f1 : (a / 4) <<< 2 % 256 = a / 4 * 4 := by
    rw [Nat.shiftLeft_eq, show (2 : Nat) ^ 2 = 4 from rfl]; omega
  have f2 : a / 4 * 4 ||| (a % 4 * 16 + b / 16) >>> 4 = a := by
    rw [Nat.shiftRight_eq_div_pow, show (2 : Nat) ^ 4 = 16 from rfl,
      show (a % 4 * 16 + b / 16) / 16 = a % 4 from by omega]
    exact b64_lor_a a ha
  have f3 : (a % 4 * 16 + b / 16) <<< 4 % 256 = b / 16 * 16 := by
    rw [Nat.shiftLeft_eq, show (2 : Nat) ^ 4 = 16 from rfl]; omega
  have f4 : b / 16 * 16 ||| (b % 16 * 4) >>> 2 = b := by
    rw [Nat.shiftRight_eq_div_pow, show (2 : Nat) ^ 2 = 4 from rfl,
      show b % 16 * 4 / 4 = b % 16 from by omega]
    exact b64_lor_b b hb
  have f5 : (b % 16 * 4) <<< 6 % 256 = 0 := by
    rw [Nat.shiftLeft_eq, show (2 : Nat) ^ 6 = 64 from rfl]; omega
  simp only [List.foldl_cons, List.foldl_nil, b64valStep]
  simp [hg, hg1, hg2, hg2', f1, f2, f3, f4, f5, Nat.add_assoc]

/-- Core of the decode loop: running the 6-bit values of `s` from any
state whose group index is a multiple of 4 advances the cursor by
`|s|`, stores exactly the bytes of `s` at the cursor, and leaves a zero
accumulator whenever the byte count is not a multiple of 3. -/
theorem b64_core (s : List Nat) :
    ∀ st : B64St, (∀ b ∈ s, b < 256) → st.gidx % 4 = 0 →
      ((b64digitVals s).foldl b64valStep st).dest = st.dest + s.length ∧
      ((b64digitVals s).foldl b64valStep st).gidx =
        st.gidx + (b64digitVals s).length ∧
      ((b64digitVals s).foldl b64valStep st).buf =
        writeList st.buf st.dest s ∧
      (s.length % 3 ≠ 0 →
        ((b64digitVals s).foldl b64valStep st).acc = 0) := by
  induction s using b64digitVals.induct with
  | case1 =>
    intro st _ _
    simp [b64digitVals, writeList]
  | case2 a =>
    intro st hb hg
    have ha : a < 256 := hb a (by simp)
    rw [show b64digitVals [a] = [a / 4, a % 4 * 16] from rfl,
      b64_tail1 st a ha hg]
    simp [writeList]
  | case3 a b =>
    intro st hb hg
    have ha : a < 256 := hb a (by simp)
    have hb' : b < 256 := hb b (by simp)
    rw [show b64digitVals [a, b] =
        [a / 4, a % 4 * 16 + b / 16, b % 16 * 4] from rfl,
      b64_tail2 st a b ha hb' hg]
    simp [writeList]
  | case4 a b c rest ih =>
    intro st hb hg
    have ha : a < 256 := hb a (by simp)
    have hb' : b < 256 := hb b (by simp)
    have hc : c < 256 := hb c (by simp)
    have hrest : ∀ x ∈ rest, x < 256 := fun x hx => hb x (by simp [hx])
    have hsplit : b64digitVals (a :: b :: c :: rest) =
        [a / 4, a % 4 * 16 + b / 16, b % 16 * 4 + c / 64, c % 64] ++
          b64digitVals rest := rfl
    rw [hsplit, List.foldl_append, b64_group st a b c ha hb' hc hg]
    have hg4 : (st.gidx + 4) % 4 = 0 := by omega
    obtain ⟨ihd, ihg, ihb, iha⟩ :=
      ih { acc := c / 64 * 64, gidx := st.gidx + 4, dest := st.dest + 3,
           buf := ((st.buf.set st.dest (some a)).set (st.dest + 1)
             (some b)).set (st.dest + 2) (some c) } hrest hg4
    refine ⟨?_, ?_, ?_, ?_⟩
    · rw [ihd]; simp; omega
    · rw [ihg]; simp [hsplit]; omega
    · rw [ihb]
      rfl
    · intro hlen
      apply iha
      simp only [List.length_cons] at hlen ⊢
      omega

theorem writeList_length (s : List Nat) :
    ∀ (buf : List (Option Nat)) (d : Nat),
      (writeList buf d s).length = buf.length := by
  induction s with
  | nil => intro buf d; rfl
  | cons b bs ih =>
    intro buf d
    rw [writeList, ih]
    simp

theorem writeList_eq (s : List Nat) :
    ∀ (buf : List (Option Nat)) (d : Nat), d + s.length ≤ buf.length →
      writeList buf d s =
        buf.take d ++ s.map some ++ buf.drop (d + s.length) := by
  induction s with
  | nil =>
    intro buf d h
    simp [writeList, List.take_append_drop]
  | cons b bs ih =>
    intro buf d h
    simp only [List.length_cons] at h
    have hd : d < buf.length := by omega
    rw [writeList, ih _ _ (by rw [List.length_set]; omega)]
    have hset : buf.set d (some b) =
        buf.take d ++ some b :: buf.drop (d + 1) := by
      rw [List.set_eq_take_append_cons_drop, if_pos hd]
    have hlen : (buf.take d).length = d := by
      rw [List.length_take]; omega
    rw [hset, List.take_append_eq_append_take,
      List.drop_append_eq_append_drop, hlen]
    have ht1 : (buf.take d).take (d + 1) = buf.take d :=
      List.take_of_length_le (by omega)
    have ht2 : (some b :: buf.drop (d + 1)).take (d + 1 - d) =
        [some b] := by
      rw [show d + 1 - d = 1 by omega]
      rfl
    have hd1 : (buf.take d).drop (d + 1 + bs.length) = [] :=
      List.drop_eq_nil_of_le (by omega)
    have hd2 : (some b :: buf.drop (d + 1)).drop
        (d + 1 + bs.length - d) = buf.drop (d + 1 + bs.length) := by
      rw [show d + 1 + bs.length - d = bs.length + 1 by omega]
      simp only [List.drop_succ_cons]
      rw [List.drop_drop]
    rw [ht1, ht2, hd1, hd2]
    simp only [List.nil_append, List.map_cons, List.length_cons]
    rw [show d + (bs.length + 1) = d + 1 + bs.length by omega]
    simp

theorem take_writeList_set (l : List (Option Nat)) (n : Nat)
    (a : Option Nat) : (l.set n a).take n = l.take n := by
  induction l generalizing n with
  | nil => simp
  | cons x xs ih =>
    cases n with
    | zero => simp
    | succ m => simp [List.set, ih]

theorem takeWhile_length_le_countP (p : Char → Bool) (l : List Char) :
    (l.takeWhile p).length ≤ l.countP p := by
  induction l with
  | nil => simp
  | cons c rest ih =>
    by_cases h : p c
    · simp only [List.takeWhile, h, List.countP_cons, if_pos rfl]
      simp [h]
      omega
    · simp [List.takeWhile, h, List.countP_cons]

/-- The allocated size is at least the byte length of the encoded
string: every trailing '=' is outside the alphabet, so stripping them
leaves at least the alphabet characters, and `len·3/4` of the alphabet
character count is the byte count. -/
theorem countP_bool_split (p : Char → Bool) (l : List Char) :
    l.countP p + l.countP (fun c => !(p c)) = l.length := by
  induction l with
  | nil => simp
  | cons c rest ih =>
    by_cases h : p c <;> simp [List.countP_cons, h] <;> omega

theorem calc_size_ge (s : List Nat) (e : List Char)
    (hdata : e.filterMap b64bits = b64digitVals s) :
    s.length ≤ mf_calc_b64_size e := by
  have hD : e.countP (fun c => (b64bits c).isSome) =
      (b64digitVals s).length := by
    rw [← List.length_filterMap_eq_countP, hdata]
  have hsplit : e.countP (fun c => (b64bits c).isSome) +
      e.countP (fun c => !(b64bits c).isSome) = e.length :=
    countP_bool_split (fun c => (b64bits c).isSome) e
  have ht : trailingEq e ≤ e.countP (fun c => !(b64bits c).isSome) := by
    unfold trailingEq
    calc (e.reverse.takeWhile (· = '=')).length
        ≤ e.reverse.countP (· = '=') :=
          takeWhile_length_le_countP _ _
      _ ≤ e.reverse.countP (fun c => !(b64bits c).isSome) := by
          apply List.countP_mono_left
          intro c _ hc
          have : c = '=' := by simpa using hc
          subst this
          decide
      _ = e.countP (fun c => !(b64bits c).isSome) := by
          rw [List.countP_reverse]
  have hDev : (b64digitVals s).length * 3 / 4 = s.length := by
    rw [b64digitVals_length]
    by_cases h0 : s.length % 3 = 0
    · simp only [h0, if_true, ite_true]
      omega
    · simp only [h0, if_false, ite_false]
      omega
  calc s.length = (b64digitVals s).length * 3 / 4 := hDev.symm
    _ ≤ (e.length - trailingEq e) * 3 / 4 := by
        apply Nat.div_le_div_right
        apply Nat.mul_le_mul_right
        omega
    _ = mf_calc_b64_size e := rfl

/-- C8 counterexample: "QQ==" is the valid base64 encoding of the
one-byte string "A" (byte 65), the decoder's allocated buffer does hold
exactly that byte, but the reported produced byte count is 2, not 1 —
the leftover-accumulator store past the end of the group advances the
cursor once more whenever padding was present. -/
theorem C8_b64decode_counterexample :
    b64encode [65] = ['Q', 'Q', '=', '='] ∧
    mf_b64decode ['Q', 'Q', '=', '='] = ([some 65], 2) ∧
    ([65] : List Nat).length = 1 := by
  refine ⟨by decide, by decide, rfl⟩

/-- C8 amended: for every byte string `s` and every character string
`e` whose base64-alphabet characters spell exactly the canonical 6-bit
encoding of `s` (arbitrary whitespace and '=' padding anywhere, as the
decoder skips every non-alphabet character), `mf_b64decode` called
without a user buffer returns a buffer whose first `|s|` cells hold
exactly the bytes of `s`, and reports a produced byte count of `|s|`
when `|s|` is a multiple of 3 (no padding needed) and `|s| + 1`
otherwise — one more than the claim's `|s|`, the extra count coming
from the leftover-accumulator byte. -/
theorem C8_b64decode_amended (s : List Nat) (e : List Char)
    (hb : ∀ b ∈ s, b < 256)
    (hdata : e.filterMap b64bits = b64digitVals s) :
    (mf_b64decode e).1.take s.length = s.map some ∧
    (mf_b64decode e).2 =
      s.length + (if s.length % 3 = 0 then 0 else 1) := by
  have hsz : s.length ≤ mf_calc_b64_size e := calc_size_ge s e hdata
  have hfold : e.foldl b64step
      (⟨0, 0, 0, List.replicate (mf_calc_b64_size e) none⟩ : B64St) =
      (b64digitVals s).foldl b64valStep
        ⟨0, 0, 0, List.replicate (mf_calc_b64_size e) none⟩ := by
    rw [b64step_foldl, hdata]
  obtain ⟨hdest, hgidx, hbuf, hacc⟩ :=
    b64_core s ⟨0, 0, 0, List.replicate (mf_calc_b64_size e) none⟩ hb
      (by simp)
  have hwl : writeList (List.replicate (mf_calc_b64_size e) none) 0 s =
      s.map some ++
        (List.replicate (mf_calc_b64_size e) none).drop s.length := by
    have := writeList_eq s (List.replicate (mf_calc_b64_size e) none) 0
      (by simpa using hsz)
    simpa using this
  have htake : (writeList (List.replicate (mf_calc_b64_size e) none) 0
      s).take s.length = s.map some := by
    rw [hwl]
    rw [show s.length = (s.map some).length by simp]
    exact List.take_left _ _
  have hDlen := b64digitVals_length s
  simp only [mf_b64decode, hfold, hdest, hgidx, hbuf, Nat.zero_add]
  by_cases hr : s.length % 3 = 0
  · have hD4 : (b64digitVals s).length % 4 = 0 := by
      rw [hDlen]
      simp only [hr, if_true, ite_true]
      omega
    simp only [hD4, ne_eq, not_true_eq_false, if_false, ite_false,
      not_false_eq_true, hr, if_true, ite_true]
    exact ⟨htake, by simp⟩
  · have hD4 : (b64digitVals s).length % 4 ≠ 0 := by
      rw [hDlen]
      have h3 : s.length % 3 = 1 ∨ s.length % 3 = 2 := by omega
      rcases h3 with h3 | h3 <;> simp [h3] <;> try omega
    simp only [hD4, ne_eq, not_false_eq_true, if_true, ite_true, hr,
      if_false, ite_false]
    constructor
    · rw [hacc hr, take_writeList_set, htake]
    · simp

/-- Witness for the amended C8: the two-byte string (65, 66) encodes to
"QUI="; decoding gives a buffer starting (65, 66) with reported count
3 = 2 + 1. -/
theorem C8_b64decode_amended_witness :
    (mf_b64decode (b64encode [65, 66])).1.take 2 =
      [some 65, some 66] ∧
    (mf_b64decode (b64encode [65, 66])).2 = 3 := by
  have h := C8_b64decode_amended [65, 66] (b64encode [65, 66])
    (by decide) (by decide)
  simpa using h

/-! ## MTL material parser (src/fmtobj.c:308-535)

The MTL file is presented as its list of lines (`mf_fgets` splits the
stream at newlines; the 128-byte line buffer cap is not exercised by
the claims).  Strings are lists of characters; `sscanf`/`strtod`
numeral parsing is modelled for decimal numerals without exponent,
which covers every numeral the claims touch.
-/

/-- C `isspace` on the default locale. -/
def cIsSpace (c : Char) : Bool :=
  c = ' ' || c = '\t' || c = '\n' || c = '\r' || c = '\x0b' || c = '\x0c'

/-- Right trim, as done by the tail loop of `clean_line`. -/
def dropTrailingWs (s : List Char) : List Char :=
  (s.reverse.dropWhile cIsSpace).reverse

/-- `clean_line` (fmtobj.c:537): skip leading whitespace (all
whitespace returns NULL, i.e. none), truncate at '#', right-trim. -/
def clean_line (s : List Char) : Option (List Char) :=
  let t := s.dropWhile cIsSpace
  if t.isEmpty then none
  else some (dropTrailingWs (t.takeWhile (fun c => c ≠ '#')))

/-- Numeric value of a decimal digit character. -/
def digitVal (c : Char) : Nat := c.toNat - 48

/-- Split a leading run of decimal digits. -/
def takeDigits (s : List Char) : List Char × List Char :=
  (s.takeWhile Char.isDigit, s.dropWhile Char.isDigit)

/-- Integer value of a digit run. -/
def natValN (ds : List Char) : Nat :=
  ds.foldl (fun a c => a * 10 + digitVal c) 0

/-- Exact rational subtraction written with `mkRat` (the `Sub ℚ`
instance is proof-equal but irreducible, which would block evaluation
of concrete runs). -/
def qsub (a b : ℚ) : ℚ :=
  mkRat (a.num * b.den - b.num * a.den) (a.den * b.den)

theorem qsub_eq (a b : ℚ) : qsub a b = a - b := (Rat.sub_def' a b).symm

/-- `strtod`-style prefix parse of a decimal numeral (optional sign,
digits, optional fraction; exponents are not modelled — no claim input
carries one).  The value is the exact rational
`±(intpart·10^k + fracpart)/10^k`.  Returns the value and the
unconsumed rest; none when no conversion is possible (endp == s). -/
def parseRatPrefix (s : List Char) : Option (ℚ × List Char) :=
  let s0 := s.dropWhile cIsSpace
  let sgn : Bool × List Char :=
    match s0 with
    | '-' :: t => (true, t)
    | '+' :: t => (false, t)
    | _ => (false, s0)
  let ds : List Char × List Char := takeDigits sgn.2
  let fs : List Char × List Char :=
    match ds.2 with
    | '.' :: t => takeDigits t
    | _ => ([], ds.2)
  if ds.1.isEmpty && fs.1.isEmpty then none
  else
    let den := 10 ^ fs.1.length
    let n : Int := (natValN ds.1 * den + natValN fs.1 : Nat)
    some (mkRat (if sgn.1 then -n else n) den, fs.2)

/-- `parse_float` (fmtobj.c:344): strtod a token, fail when nothing was
consumed. -/
def parse_float (s : List Char) : Option ℚ :=
  (parseRatPrefix s).map Prod.fst

/-- `parse_bool` (fmtobj.c:337): `on`/`off`, −1 (none) otherwise. -/
def parse_bool (s : List Char) : Option Bool :=
  if s = "on".toList then some true
  else if s = "off".toList then some false
  else none

/-- `parse_value` (fmtobj.c:308): `sscanf(args, "%f %f %f")` writing
each converted field as it goes; 3 conversions succeed, 1 conversion
broadcasts, 0 or 2 conversions return −1 (leaving the partial writes
in place, exactly as the C does). -/
def parse_value (val : V4) (args : List Char) : Int × V4 :=
  match parseRatPrefix args with
  | none => (-1, val)
  | some (x, r1) =>
    let val1 : V4 := { val with x := x }
    match parseRatPrefix r1 with
    | none => (0, { val1 with y := x, z := x })
    | some (y, r2) =>
      let val2 : V4 := { val1 with y := y }
      match parseRatPrefix r2 with
      | none => (-1, val2)
      | some (z, _) => (0, { val2 with z := z })

/-- `nextarg` tokenization: whitespace-separated tokens of the
argument string. -/
def tokensGo : List Char → List Char → List (List Char)
  | [], cur => if cur.isEmpty then [] else [cur.reverse]
  | c :: rest, cur =>
    if cIsSpace c then
      if cur.isEmpty then tokensGo rest []
      else cur.reverse :: tokensGo rest []
    else tokensGo rest (c :: cur)

/-- Token list of an argument string. -/
def tokens (s : List Char) : List (List Char) := tokensGo s []

/-- Texture filter mode (meshfile.h:56). -/
inductive TexFilter
  | nearest
  | linear
deriving DecidableEq, Repr

/-- Texture wrap mode (meshfile.h:57). -/
inductive TexWrap
  | rep
  | clamp
deriving DecidableEq, Repr

/-- Material attribute slot role (meshfile.h:41, `mf_mtlattr_type`). -/
inductive MtlAttrType
  | color
  | specular
  | shininess
  | roughness
  | metallic
  | emissive
  | reflect
  | transmit
  | ior
  | alpha
  | bump
deriving DecidableEq, Repr

/-- Texture map descriptor (meshfile.h:60, `mf_texmap`). -/
structure TexMap where
  name : Option String
  cube : List (Option String)
  ufilt : TexFilter
  vfilt : TexFilter
  uwrap : TexWrap
  vwrap : TexWrap
  offset : V3
  scale : V3
  rot : ℚ
deriving DecidableEq, Repr

/-- Material attribute slot (meshfile.h:69, `mf_mtlattr`): role tag,
4-float value, texture map descriptor. -/
structure MtlAttr where
  type : MtlAttrType
  val : V4
  map : TexMap
deriving DecidableEq, Repr

/-- A material: a name and the eleven attribute slots (meshfile.h:77),
here as named fields in enum order. -/
structure Material where
  name : Option String
  color : MtlAttr
  specular : MtlAttr
  shininess : MtlAttr
  roughness : MtlAttr
  metallic : MtlAttr
  emissive : MtlAttr
  reflect : MtlAttr
  transmit : MtlAttr
  ior : MtlAttr
  alpha : MtlAttr
  bump : MtlAttr
deriving DecidableEq, Repr

/-- DEFMAP (meshfile.c:57): no names, linear filtering, repeat wrap,
zero offset, unit scale, zero rotation. -/
def defaultMap : TexMap :=
  { name := none, cube := [none, none, none, none, none, none]
    ufilt := .linear, vfilt := .linear, uwrap := .rep, vwrap := .rep
    offset := ⟨0, 0, 0⟩, scale := ⟨1, 1, 1⟩, rot := 0 }

/-- The `defmtl` defaults (meshfile.c:60). -/
def defaultMaterial : Material :=
  { name := none
    color := ⟨.color, ⟨mkRat 7 10, mkRat 7 10, mkRat 7 10, mkRat 7 10⟩,
      defaultMap⟩
    specular := ⟨.specular, ⟨0, 0, 0, 0⟩, defaultMap⟩
    shininess := ⟨.shininess, ⟨1, 0, 0, 0⟩, defaultMap⟩
    roughness := ⟨.roughness, ⟨1, 1, 1, 1⟩, defaultMap⟩
    metallic := ⟨.metallic, ⟨0, 0, 0, 0⟩, defaultMap⟩
    emissive := ⟨.emissive, ⟨0, 0, 0, 0⟩, defaultMap⟩
    reflect := ⟨.reflect, ⟨0, 0, 0, 0⟩, defaultMap⟩
    transmit := ⟨.transmit, ⟨0, 0, 0, 0⟩, defaultMap⟩
    ior := ⟨.ior, ⟨1, 0, 0, 0⟩, defaultMap⟩
    alpha := ⟨.alpha, ⟨1, 1, 1, 1⟩, defaultMap⟩
    bump := ⟨.bump, ⟨0, 0, 0, 0⟩, defaultMap⟩ }

/-- Slot lookup, mirroring `mtl->attr[i]`. -/
def Material.attr (m : Material) : MtlAttrType → MtlAttr
  | .color => m.color
  | .specular => m.specular
  | .shininess => m.shininess
  | .roughness => m.roughness
  | .metallic => m.metallic
  | .emissive => m.emissive
  | .reflect => m.reflect
  | .transmit => m.transmit
  | .ior => m.ior
  | .alpha => m.alpha
  | .bump => m.bump

/-- Slot update, mirroring assignment through `mtl->attr + i`. -/
def Material.setAttr (m : Material) : MtlAttrType → MtlAttr → Material
  | .color, a => { m with color := a }
  | .specular, a => { m with specular := a }
  | .shininess, a => { m with shininess := a }
  | .roughness, a => { m with roughness := a }
  | .metallic, a => { m with metallic := a }
  | .emissive, a => { m with emissive := a }
  | .reflect, a => { m with reflect := a }
  | .transmit, a => { m with transmit := a }
  | .ior, a => { m with ior := a }
  | .alpha, a => { m with alpha := a }
  | .bump, a => { m with bump := a }

/-- The six cube-face option names of `-type` (fmtobj.c:353). -/
def facename : List (List Char) :=
  ["cube_top", "cube_bottom", "cube_front", "cube_back", "cube_left",
   "cube_right"].map String.toList

/-- Index of a cube-face name, none standing for the C's −1. -/
def faceIdx (val : List Char) : Option Nat :=
  facename.findIdx? (fun f => f = val)

/-- Loop state of `parse_map`: the attribute being written, the
current cube-face selector, and the local `pos`/`scale` vectors. -/
structure PMState where
  attr : MtlAttr
  cubeface : Option Nat
  pos : V3
  scale : V3
deriving DecidableEq, Repr

/-- Write the `-o`/`-s` target vector: the code selects it with
`arg[1] == '0'` — the digit zero, which matches neither "-o" nor
"-s", so both options in fact write the scale vector. -/
def setOVec (st : PMState) (isPos : Bool) (f : V3 → V3) : PMState :=
  if isPos then { st with pos := f st.pos } else { st with scale := f st.scale }

/-- The `-o`/`-s` value scan (fmtobj.c:397-414): read up to three
floats into the target vector, restoring the token cursor at the first
parse failure (the C saves `prev` before each `nextarg`).  Returns the
updated state and the unconsumed tokens. -/
def scanOVec (isPos : Bool) (st : PMState) (val : List Char)
    (rest2 : List (List Char)) : PMState × List (List Char) :=
  match parse_float val with
  | none => (st, rest2)
  | some x =>
    let st1 := setOVec st isPos fun v => { v with x := x }
    match rest2 with
    | [] => (st1, [])
    | val2 :: rest3 =>
      match parse_float val2 with
      | none => (st1, rest2)
      | some y =>
        let st2 := setOVec st1 isPos fun v => { v with y := y }
        match rest3 with
        | [] => (st2, [])
        | val3 :: rest4 =>
          match parse_float val3 with
          | none => (st2, rest3)
          | some z => (setOVec st2 isPos fun v => { v with z := z }, rest4)

theorem scanOVec_len (isPos : Bool) (st : PMState) (val : List Char)
    (rest2 : List (List Char)) :
    (scanOVec isPos st val rest2).2.length ≤ rest2.length := by
  unfold scanOVec
  rcases h1 : parse_float val with _ | x
  · simp
  · simp only [h1]
    cases rest2 with
    | nil => simp
    | cons val2 rest3 =>
      rcases h2 : parse_float val2 with _ | y
      · simp [h2]
      · simp only [h2]
        cases rest3 with
        | nil => simp
        | cons val3 rest4 =>
          rcases h3 : parse_float val3 with _ | z
          · simp [h3]
          · simp [h3]
            omega

/-- Option-processing loop of `parse_map` (fmtobj.c:368-444) over the
token list.  The first argument is fuel bounding the number of loop
iterations; every iteration consumes at least the leading token, so
running with fuel equal to the token count is the whole loop (the fuel
keeps the recursion structural, so that it evaluates by reduction). -/
def parse_map_go : Nat → List (List Char) → PMState → PMState
  | 0, _, st => st
  | Nat.succ _, [], st => st
  | Nat.succ fuel, arg :: rest, st =>
    if arg.head? = some '-' then
      match rest with
      | [] => st
      | val :: rest2 =>
        if arg = "-blendu".toList then
          match parse_bool val with
          | none => parse_map_go fuel rest2 st
          | some bv =>
            parse_map_go fuel rest2
              { st with attr := { st.attr with map := { st.attr.map with
                  ufilt := if bv then .linear else .nearest } } }
        else if arg = "-blendv".toList then
          match parse_bool val with
          | none => parse_map_go fuel rest2 st
          | some bv =>
            parse_map_go fuel rest2
              { st with attr := { st.attr with map := { st.attr.map with
                  vfilt := if bv then .linear else .nearest } } }
        else if arg = "-clamp".toList then
          match parse_bool val with
          | none => parse_map_go fuel rest2 st
          | some bv =>
            let w := if bv then TexWrap.clamp else TexWrap.rep
            parse_map_go fuel rest2
              { st with attr := { st.attr with map := { st.attr.map with
                  uwrap := w, vwrap := w } } }
        else if arg = "-bm".toList then
          if st.attr.type ≠ MtlAttrType.bump then parse_map_go fuel rest2 st
          else
            match parse_float val with
            | none => parse_map_go fuel rest2 st
            | some f =>
              parse_map_go fuel rest2
                { st with attr := { st.attr with val := { st.attr.val with
                    x := f, y := f, z := f } } }
        else if arg = "-o".toList ∨ arg = "-s".toList then
          let r := scanOVec (arg.get? 1 == some '0') st val rest2
          parse_map_go fuel r.2 r.1
        else if arg = "-type".toList ∧ st.attr.type = MtlAttrType.reflect
        then
          parse_map_go fuel rest2 { st with cubeface := faceIdx val }
        else
          parse_map_go fuel rest2 st
    else
      match st.cubeface with
      | none =>
        parse_map_go fuel rest
          { st with attr := { st.attr with map := { st.attr.map with
              name := some (String.mk arg) } } }
      | some i =>
        parse_map_go fuel rest
          { st with
            attr := { st.attr with map := { st.attr.map with
              cube := st.attr.map.cube.set i (some (String.mk arg)) } }
            cubeface := none }

/-- `parse_map` (fmtobj.c:359): run the option loop, then store the
accumulated offset and scale into the map. -/
def parse_map (attr : MtlAttr) (args : List Char) : MtlAttr :=
  let toks := tokens args
  let st := parse_map_go toks.length toks
    { attr := attr, cubeface := none, pos := ⟨0, 0, 0⟩, scale := ⟨1, 1, 1⟩ }
  { st.attr with map :=
      { st.attr.map with
        offset := st.pos
        scale := st.scale } }

/-- Lowercasing for `mf_strcasecmp` (meshfile.c:531). -/
def toLowerC (c : Char) : Char :=
  if 'A' ≤ c ∧ c ≤ 'Z' then Char.ofNat (c.toNat + 32) else c

/-- Case-insensitive equality of two tokens. -/
def lcEq (a b : List Char) : Prop := a.map toLowerC = b.map toLowerC

instance (a b : List Char) : Decidable (lcEq a b) := by
  unfold lcEq; infer_instance

/-- The value/map directive dispatch chain of `load_mtl`
(fmtobj.c:483-524), applied to the current material.  Note the source
chain: `map_Ks` writes the SHININESS slot's map, and no case exists
for `map_Ke`, `map_Ns`, `map_Pr` or `map_Pm`. -/
def applyCmd (mtl : Material) (cmd : List Char)
    (args : Option (List Char)) : Material :=
  let argsL := args.getD []
  if cmd = "Kd".toList then
    mtl.setAttr .color { mtl.color with
      val := (parse_value mtl.color.val argsL).2 }
  else if cmd = "Ks".toList then
    mtl.setAttr .specular { mtl.specular with
      val := (parse_value mtl.specular.val argsL).2 }
  else if cmd = "Ke".toList then
    mtl.setAttr .emissive { mtl.emissive with
      val := (parse_value mtl.emissive.val argsL).2 }
  else if cmd = "Ns".toList then
    mtl.setAttr .shininess { mtl.shininess with
      val := (parse_value mtl.shininess.val argsL).2 }
  else if cmd = "d".toList then
    let r := parse_value mtl.alpha.val argsL
    let m1 := mtl.setAttr .alpha { mtl.alpha with val := r.2 }
    if r.1 ≠ -1 then
      m1.setAttr .transmit { m1.transmit with
        val := { m1.transmit.val with x := qsub 1 r.2.x } }
    else m1
  else if cmd = "Ni".toList then
    mtl.setAttr .ior { mtl.ior with
      val := (parse_value mtl.ior.val argsL).2 }
  else if cmd = "Pr".toList then
    mtl.setAttr .roughness { mtl.roughness with
      val := (parse_value mtl.roughness.val argsL).2 }
  else if cmd = "Pm".toList then
    mtl.setAttr .metallic { mtl.metallic with
      val := (parse_value mtl.metallic.val argsL).2 }
  else if cmd = "map_Kd".toList then
    mtl.setAttr .color (parse_map mtl.color argsL)
  else if cmd = "map_Ks".toList then
    mtl.setAttr .shininess (parse_map mtl.shininess argsL)
  else if cmd = "map_d".toList then
    mtl.setAttr .alpha (parse_map mtl.alpha argsL)
  else if cmd = "bump".toList ∨ lcEq cmd ("map_bump".toList) then
    mtl.setAttr .bump (parse_map mtl.bump argsL)
  else if cmd = "refl".toList then
    mtl.setAttr .reflect (parse_map mtl.reflect argsL)
  else mtl

/-- Parser state of `load_mtl`: the materials already added to the
scene and the material currently open. -/
structure MtlState where
  mtls : List Material
  cur : Option Material
deriving DecidableEq, Repr

/-- Arguments part of a cleaned line: everything after the first
whitespace, cleaned again (`args = *ptr ? clean_line(ptr + 1) : 0`). -/
def lineArgs (line : List Char) : Option (List Char) :=
  match line.dropWhile (fun c => !cIsSpace c) with
  | [] => none
  | _ :: t => clean_line t

/-- One line of `load_mtl` (fmtobj.c:458-525): clean the line, split
command and arguments; `newmtl` flushes the open material (with no
shininess clamp) and opens a fresh default one with the given name;
every other command touches the open material if any. -/
def load_mtl_line (st : MtlState) (raw : List Char) : MtlState :=
  match clean_line raw with
  | none => st
  | some line =>
    if line = [] then st
    else
      let cmd := line.takeWhile (fun c => !cIsSpace c)
      let args := lineArgs line
      if cmd = "newmtl".toList then
        { mtls := st.mtls ++ st.cur.toList
          cur := some (applyCmd
            { defaultMaterial with name := args.map String.mk } cmd args) }
      else
        match st.cur with
        | none => st
        | some mtl => { st with cur := some (applyCmd mtl cmd args) }

/-- The end-of-file shininess clamp (fmtobj.c:527-531): if the parsed
shininess is below 1, zero the specular colour — applied only to the
material still open when the file ends. -/
def clampSpec (m : Material) : Material :=
  if m.shininess.val.x < 1 then
    { m with specular := { m.specular with
        val := { m.specular.val with x := 0, y := 0, z := 0 } } }
  else m

/-- `load_mtl` over the lines of the file: fold the line handler, then
flush the last open material through the shininess clamp. -/
def load_mtl (lines : List (List Char)) : List Material :=
  let st := lines.foldl load_mtl_line ⟨[], none⟩
  match st.cur with
  | some m => st.mtls ++ [clampSpec m]
  | none => st.mtls

theorem load_mtl_line_cur (st : MtlState) (raw : List Char) :
    (load_mtl_line st raw).cur = none →
      load_mtl_line st raw = st ∧ st.cur = none := by
  intro h
  rcases hcl : clean_line raw with _ | line
  · simp only [load_mtl_line, hcl] at h ⊢
    exact ⟨trivial, h⟩
  · by_cases hemp : line = []
    · simp only [load_mtl_line, hcl] at h ⊢
      rw [if_pos hemp] at h ⊢
      exact ⟨rfl, h⟩
    · simp only [load_mtl_line, hcl] at h ⊢
      rw [if_neg hemp] at h ⊢
      by_cases hcmd :
          List.takeWhile (fun c => !cIsSpace c) line = "newmtl".toList
      · rw [if_pos hcmd] at h
        simp at h
      · rw [if_neg hcmd] at h ⊢
        rcases hc : st.cur with _ | mtl
        · exact ⟨rfl, rfl⟩
        · simp [hc] at h

theorem load_mtl_cur_none (lines : List (List Char)) :
    ∀ st : MtlState, (st.cur = none → st.mtls = []) →
      ((lines.foldl load_mtl_line st).cur = none →
        (lines.foldl load_mtl_line st).mtls = []) := by
  induction lines with
  | nil => intro st h; exact h
  | cons l rest ih =>
    intro st h
    simp only [List.foldl_cons]
    refine ih (load_mtl_line st l) ?_
    intro hc
    obtain ⟨heq, hcur⟩ := load_mtl_line_cur st l hc
    rw [heq]
    exact h hcur

/-- C5: the MTL parser's texture-map dispatch does not match the
claim.  On the file `newmtl m` / `map_Ks spec.png` / `map_Ke glow.png`
the parser stores the map_Ks texture into the SHININESS slot (not the
specular slot the claim names), leaves the specular slot's map empty,
and ignores `map_Ke` entirely (the emissive slot's map stays empty) —
the dispatch chain of fmtobj.c:509-524 has `map_Ks` feeding
`MF_SHININESS` and no cases at all for `map_Ke`, `map_Ns`, `map_Pr`,
`map_Pm`, while the library's own OBJ writer emits `map_Ks` for the
specular map and `map_Ns` for the shininess map. -/
theorem C5_mtl_map_dispatch_bug :
    (load_mtl ["newmtl m".toList, "map_Ks spec.png".toList,
        "map_Ke glow.png".toList]).length = 1 ∧
    ((load_mtl ["newmtl m".toList, "map_Ks spec.png".toList,
        "map_Ke glow.png".toList]).headD
      defaultMaterial).shininess.map.name = some "spec.png" ∧
    ((load_mtl ["newmtl m".toList, "map_Ks spec.png".toList,
        "map_Ke glow.png".toList]).headD
      defaultMaterial).specular.map.name = none ∧
    ((load_mtl ["newmtl m".toList, "map_Ks spec.png".toList,
        "map_Ke glow.png".toList]).headD
      defaultMaterial).emissive.map.name = none := by
  refine ⟨by decide, by decide, by decide, by decide⟩

/-- C6 counterexample: in a file defining material `a` (with Ns 0.5
and Ks 1 1 1) followed by `newmtl b`, material `a` is added when the
second `newmtl` is seen — before the end-of-file clamp — so after the
whole library is parsed its specular colour is still (1,1,1) even
though its shininess 0.5 is below 1. -/
theorem C6_ns_clamp_counterexample :
    ((load_mtl ["newmtl a".toList, "Ns 0.5".toList, "Ks 1 1 1".toList,
        "newmtl b".toList]).headD defaultMaterial).shininess.val.x <
      1 ∧
    ((load_mtl ["newmtl a".toList, "Ns 0.5".toList, "Ks 1 1 1".toList,
        "newmtl b".toList]).headD defaultMaterial).specular.val.x =
      1 := by
  refine ⟨by decide, by decide⟩

/-- C6 amended: the shininess-below-1 specular zeroing is applied only
at end of file, to the material still open there — hence it holds for
the last material of the parsed library (for every material list and
line list), but not for the earlier materials, which are added
unclamped when the next `newmtl` is seen (see the counterexample). -/
theorem C6_ns_clamp_amended (lines : List (List Char)) (m : Material)
    (hlast : (load_mtl lines).getLast? = some m)
    (hs : m.shininess.val.x < 1) :
    m.specular.val.x = 0 ∧ m.specular.val.y = 0 ∧
      m.specular.val.z = 0 := by
  simp only [load_mtl] at hlast
  rcases hcur : (lines.foldl load_mtl_line ⟨[], none⟩).cur with _ | m0
  · rw [hcur] at hlast
    rw [load_mtl_cur_none lines ⟨[], none⟩ (fun _ => rfl) hcur] at hlast
    simp at hlast
  · rw [hcur] at hlast
    simp only [List.getLast?_concat, Option.some.injEq] at hlast
    subst hlast
    unfold clampSpec at hs ⊢
    by_cases hc : m0.shininess.val.x < 1
    · simp [hc]
    · simp only [hc, if_false, ite_false] at hs

/-- Witness for the amended C6: a file ending with an open material of
shininess 0.5 and specular (1,1,1) yields, after the clamp, a last
material with zero specular colour. -/
theorem C6_ns_clamp_amended_witness :
    ((load_mtl ["newmtl a".toList, "Ns 0.5".toList,
        "Ks 1 1 1".toList]).getLast?.getD
      defaultMaterial).specular.val.x = 0 ∧
    ((load_mtl ["newmtl a".toList, "Ns 0.5".toList,
        "Ks 1 1 1".toList]).getLast?.getD
      defaultMaterial).specular.val.y = 0 ∧
    ((load_mtl ["newmtl a".toList, "Ns 0.5".toList,
        "Ks 1 1 1".toList]).getLast?.getD
      defaultMaterial).specular.val.z = 0 :=
  C6_ns_clamp_amended
    ["newmtl a".toList, "Ns 0.5".toList, "Ks 1 1 1".toList] _
    (by decide) (by decide)

/-! ## OBJ writer (src/fmtobj.c:722-859)

The OBJ output stream is modelled as the list of lines emitted to it:
each `mf_fprintf`/`mf_fputs` call of the writer emits exactly one line
(the `f` lines are assembled in a buffer and written with one
`mf_fputs`).  The companion `.mtl` stream written through `subio` is a
different stream and not part of the OBJ byte sequence.  Meshes carry
their stored attribute arrays; the C loops run `num_verts` times over
them, which under the library's attribute-length invariant (spec P1,
enforced by the OBJ loader's `mesh_done`) traverses exactly the stored
arrays; a NULL `faces` array coincides with an empty face list
(`num_faces` is the face array's length).  `write_material` always
returns 0, so the material loop never aborts the save. -/

/-- A triangle of vertex indices (`mf_face`). -/
structure Face3 where
  a : Nat
  b : Nat
  c : Nat
deriving DecidableEq, Repr

/-- A mesh as the OBJ writer sees it: `mtlname` is `m->mtl->name`
(never NULL — meshes default to the built-in material). -/
structure OMesh where
  name : Option String
  mtlname : String
  vertex : List V3
  normal : Option (List V3)
  texcoord : Option (List V2)
  faces : List Face3
deriving DecidableEq, Repr

/-- The scene fields `mf_save_obj` consults: the (save-path) name and
directory, the material array (only the names matter to the OBJ
stream) and the mesh array. -/
structure OScene where
  name : String
  dirname : Option String
  mtls : List String
  meshes : List OMesh
deriving DecidableEq, Repr

/-- One `vspec` reference of an `f` line: the printed 1-based index
(used for position, texcoord and normal alike) and which of the
`/t`, `/n` parts are printed. -/
structure VRef where
  idx : Nat
  hasT : Bool
  hasN : Bool
deriving DecidableEq, Repr

/-- One emitted OBJ line. -/
inductive ObjLine
  | text (s : String)
  | mtllib (path : String)
  | oline (name : Option String)
  | usemtl (name : String)
  | v (x y z : ℚ)
  | vn (x y z : ℚ)
  | vt (u w : ℚ)
  | f (refs : List VRef)
deriving DecidableEq, Repr

/-- Source `face_vref` (fmtobj.c:722): print the 1-based index, then
`/idx` when the mesh has texcoords, then `/idx` (with an empty
texcoord part) when it has normals. -/
def face_vref (m : OMesh) (vidx : Nat) : VRef :=
  ⟨vidx + 1, m.texcoord.isSome, m.normal.isSome⟩

/-- Source `write_mesh` (fmtobj.c:737): `o`, `usemtl`, the `v` run,
the `vn` run if normals exist, the `vt` run if texcoords exist, then
one `f` line per face with every index offset by `voffs`. -/
def write_mesh (m : OMesh) (voffs : Nat) : List ObjLine :=
  [ObjLine.oline m.name, ObjLine.usemtl m.mtlname]
    ++ m.vertex.map (fun p => ObjLine.v p.x p.y p.z)
    ++ (match m.normal with
        | some ns => ns.map fun p => ObjLine.vn p.x p.y p.z
        | none => [])
    ++ (match m.texcoord with
        | some ts => ts.map fun p => ObjLine.vt p.x p.y
        | none => [])
    ++ m.faces.map fun fc =>
        ObjLine.f [face_vref m (voffs + fc.a), face_vref m (voffs + fc.b),
          face_vref m (voffs + fc.c)]

/-- The mesh loop of `mf_save_obj` (fmtobj.c:852-857): each mesh is
written at the running vertex offset, which then grows by the mesh's
vertex count. -/
def writeMeshes : List OMesh → Nat → List ObjLine
  | [], _ => []
  | m :: ms, voffs => write_mesh m voffs ++ writeMeshes ms (voffs + m.vertex.length)

/-- Index of the last occurrence of a character. -/
def lastIdxOf (c : Char) (s : List Char) : Option Nat :=
  match s.reverse.findIdx? (· = c) with
  | none => none
  | some i => some (s.length - 1 - i)

/-- Source `basename` (fmtobj.c:796): `strrchr(s, '/')` — which
points AT the last slash, so the result keeps the slash — or the
whole string. -/
def basenameC (s : List Char) : List Char :=
  match lastIdxOf '/' s with
  | none => s
  | some i => s.drop i

/-- The `.mtl` path construction of `mf_save_obj` (fmtobj.c:816-831):
dirname + "/" + basename(name), with everything from the last dot (or
the end) replaced by ".mtl". -/
def mtlpathOf (mf : OScene) : List Char :=
  let fname := basenameC mf.name.toList
  let path :=
    match mf.dirname with
    | some d => d.toList ++ '/' :: fname
    | none => fname
  let stem :=
    match lastIdxOf '.' path with
    | none => path
    | some i => path.take i
  stem ++ ".mtl".toList

/-- Source `mf_save_obj` (fmtobj.c:802): the two header lines — a '#' comment
and the literal line `csh -xeyes` — then, when the scene has materials
and the I/O interface provides an `open` that succeeds for the .mtl
path (`openOk`), one `mtllib` line naming the basename of the .mtl
path, then the meshes. -/
def mf_save_obj_lines (mf : OScene) (openOk : Bool) : List ObjLine :=
  [ObjLine.text
      "# OBJ file written by libmeshfile: https://github.com/jtsiomb/meshfile",
    ObjLine.text "csh -xeyes"]
    ++ (if mf.mtls ≠ [] ∧ openOk = true then
          [ObjLine.mtllib (String.mk (basenameC (mtlpathOf mf)))]
        else [])
    ++ writeMeshes mf.meshes 0

/-- A line is a comment iff it is literal text starting with '#'. -/
def isCommentLine : ObjLine → Bool
  | .text s => s.toList.head? = some '#'
  | _ => false

/-- Modelled from the claim's words: the block of lines for one mesh
whose global vertex offset is `offs` — one `o`, one `usemtl`, the
`v`/`vn`/`vt` runs for its vertices, and `f` lines whose 1-based
indices are `offs` plus the face's local index plus one. -/
def meshBlockSpec (m : OMesh) (offs : Nat) : List ObjLine :=
  [ObjLine.oline m.name, ObjLine.usemtl m.mtlname]
    ++ m.vertex.map (fun p => ObjLine.v p.x p.y p.z)
    ++ (match m.normal with
        | some ns => ns.map fun p => ObjLine.vn p.x p.y p.z
        | none => [])
    ++ (match m.texcoord with
        | some ts => ts.map fun p => ObjLine.vt p.x p.y
        | none => [])
    ++ m.faces.map fun fc =>
        ObjLine.f
          [⟨offs + fc.a + 1, m.texcoord.isSome, m.normal.isSome⟩,
           ⟨offs + fc.b + 1, m.texcoord.isSome, m.normal.isSome⟩,
           ⟨offs + fc.c + 1, m.texcoord.isSome, m.normal.isSome⟩]

/-- Global vertex offsets of the meshes, starting from `base`. -/
def scanOffsets : List OMesh → Nat → List Nat
  | [], _ => []
  | m :: ms, base => base :: scanOffsets ms (base + m.vertex.length)

/-- Vertex total of the meshes preceding index `i`. -/
def vertexTotalBefore (ms : List OMesh) (i : Nat) : Nat :=
  ((ms.take i).map fun m => m.vertex.length).sum

theorem scanOffsets_eq (ms : List OMesh) :
    ∀ base : Nat, scanOffsets ms base =
      (List.range ms.length).map fun i => base + vertexTotalBefore ms i := by
  induction ms with
  | nil => intro base; simp [scanOffsets]
  | cons m rest ih =>
    intro base
    simp only [scanOffsets]
    rw [ih (base + m.vertex.length), List.length_cons,
      List.range_succ_eq_map, List.map_cons, List.map_map]
    have hf : ((fun i => base + vertexTotalBefore (m :: rest) i) ∘ Nat.succ)
        = fun i => base + m.vertex.length + vertexTotalBefore rest i := by
      funext i
      simp [Function.comp, vertexTotalBefore, Nat.succ_eq_add_one,
        List.take_succ_cons, List.map_cons, List.sum_cons, Nat.add_assoc]
    rw [hf]
    simp [vertexTotalBefore]

theorem writeMeshes_eq (ms : List OMesh) : ∀ voffs : Nat,
    writeMeshes ms voffs =
      ((ms.zip (scanOffsets ms voffs)).map fun p => meshBlockSpec p.1 p.2).flatten := by
  induction ms with
  | nil => intro voffs; simp [writeMeshes, scanOffsets]
  | cons m rest ih =>
    intro voffs
    simp only [writeMeshes, scanOffsets, List.zip_cons_cons, List.map_cons,
      List.flatten_cons, ih]
    rfl

/-- C7 counterexample: for the empty scene the OBJ stream is exactly
the two header lines, and the second of them is the literal
`csh -xeyes` (fmtobj.c:810), which is not a comment ('#'-prefixed)
line, nor an `mtllib`/`o`/`usemtl`/`v`/`vn`/`vt`/`f` line — so the
output does not consist of a comment banner followed only by the
enumerated line forms. -/
theorem C7_banner_counterexample :
    mf_save_obj_lines ⟨"out.obj", none, [], []⟩ true =
      [ObjLine.text
        "# OBJ file written by libmeshfile: https://github.com/jtsiomb/meshfile",
       ObjLine.text "csh -xeyes"] ∧
    isCommentLine (ObjLine.text "csh -xeyes") = false ∧
    isCommentLine (ObjLine.text
      "# OBJ file written by libmeshfile: https://github.com/jtsiomb/meshfile")
      = true := by
  refine ⟨rfl, by decide, by decide⟩

/-- C7 amended: the byte sequence the OBJ writer emits to the OBJ
stream is: a '#' comment line, then the literal non-comment line
`csh -xeyes`, then (when the scene has materials and opening the
companion .mtl file succeeds) one `mtllib` line, then for each mesh in
scene order exactly one `o` line, one `usemtl` line, the `v`, `vn`,
`vt` runs of its stored vertex attributes, and one `f` line per face
whose 1-based indices are globally offset by the vertex totals of the
preceding meshes — and nothing else. -/
theorem C7_save_obj_amended (mf : OScene) (openOk : Bool) :
    mf_save_obj_lines mf openOk =
      [ObjLine.text
          "# OBJ file written by libmeshfile: https://github.com/jtsiomb/meshfile",
        ObjLine.text "csh -xeyes"]
        ++ (if mf.mtls ≠ [] ∧ openOk = true then
              [ObjLine.mtllib (String.mk (basenameC (mtlpathOf mf)))]
            else [])
        ++ ((mf.meshes.zip (scanOffsets mf.meshes 0)).map fun p =>
              meshBlockSpec p.1 p.2).flatten ∧
    scanOffsets mf.meshes 0 =
      (List.range mf.meshes.length).map (vertexTotalBefore mf.meshes) := by
  refine ⟨?_, ?_⟩
  · simp only [mf_save_obj_lines, writeMeshes_eq]
  · rw [scanOffsets_eq]
    simp [Nat.zero_add]

/-! ## STL and JTF loaders versus the name assertions
(src/fmtstl.c:30-104, src/fmtjtf.c:53-125, src/meshfile.c:367-414)

`mf_init_mesh`/`mf_init_node` zero the structures, so a fresh mesh or
node has a NULL name (modelled `none`) and the default material
("default material").  `mf_add_mesh` runs `assert(m->name)` and
`mf_add_node` runs `assert(n->name)` before pushing; the checked add
functions below return `none` exactly when that assertion condition is
violated.  The loaders are modelled from their post-header body: the
STL loader folds over the parsed 50-byte face records, the JTF loader
over the parsed face records, building the single mesh and node they
add at the end. -/

/-- A fresh mesh from `mf_alloc_mesh`: everything zeroed, material the
built-in default. -/
def newMesh : OMesh :=
  { name := none
    mtlname := "default material"
    vertex := []
    normal := none
    texcoord := none
    faces := [] }

/-- A node as the STL/JTF loaders use it: its name and mesh list
(`mf_alloc_node` zeroes the name). -/
structure LNode where
  name : Option String
  meshes : List OMesh
deriving DecidableEq, Repr

/-- A fresh node from `mf_alloc_node`. -/
def newNode : LNode :=
  { name := none, meshes := [] }

/-- `mf_add_vertex`: push one vertex. -/
def mf_add_vertex (m : OMesh) (v : V3) : OMesh :=
  { m with vertex := m.vertex ++ [v] }

/-- `mf_add_normal`: allocate the normal array on first use, push. -/
def mf_add_normal (m : OMesh) (n : V3) : OMesh :=
  { m with normal := some (m.normal.getD [] ++ [n]) }

/-- `mf_add_texcoord`: allocate the texcoord array on first use, push. -/
def mf_add_texcoord (m : OMesh) (t : V2) : OMesh :=
  { m with texcoord := some (m.texcoord.getD [] ++ [t]) }

/-- `mf_add_triangle`: push one face. -/
def mf_add_triangle (m : OMesh) (a b c : Nat) : OMesh :=
  { m with faces := m.faces ++ [⟨a, b, c⟩] }

/-- `mf_add_mesh` (meshfile.c:367): `assert(m->name)` then push; the
assertion firing is the `none` result. -/
def mf_add_mesh_checked (sc : List OMesh) (m : OMesh) : Option (List OMesh) :=
  if m.name.isSome then some (sc ++ [m]) else none

/-- `mf_add_node` (meshfile.c:393): `assert(n->name)` then push; the
assertion firing is the `none` result. -/
def mf_add_node_checked (sc : List LNode) (n : LNode) : Option (List LNode) :=
  if n.name.isSome then some (sc ++ [n]) else none

/-- One parsed 50-byte binary STL facet: a normal and three corners
(read_vector already accounts for the x,z,y component order). -/
structure StlFace where
  norm : V3
  v0 : V3
  v1 : V3
  v2 : V3
deriving DecidableEq, Repr

/-- The STL face loop body (fmtstl.c:59-84): for each of the three
corners add the facet normal then the vertex, then add the triangle
(vidx, vidx+2, vidx+1) and advance vidx by 3. -/
def stlStep (st : OMesh × Nat) (r : StlFace) : OMesh × Nat :=
  let m1 := mf_add_vertex (mf_add_normal st.1 r.norm) r.v0
  let m2 := mf_add_vertex (mf_add_normal m1 r.norm) r.v1
  let m3 := mf_add_vertex (mf_add_normal m2 r.norm) r.v2
  (mf_add_triangle m3 st.2 (st.2 + 2) (st.2 + 1), st.2 + 3)

/-- `mf_load_stl` after a valid header (fmtstl.c:50-98): build the one
mesh from the face records — never assigning it or the node a name —
attach it to the node, then `mf_add_mesh` and `mf_add_node`. -/
def mf_load_stl_model (meshes : List OMesh) (nodes : List LNode)
    (recs : List StlFace) : Option (List OMesh × List LNode) :=
  let built := (recs.foldl stlStep (newMesh, 0)).1
  let node : LNode := { newNode with meshes := newNode.meshes ++ [built] }
  match mf_add_mesh_checked meshes built with
  | none => none
  | some ms =>
    match mf_add_node_checked nodes node with
    | none => none
    | some ns => some (ms, ns)

/-- One vertex of a JTF face record: position, normal, texcoord. -/
structure JtfVert where
  pos : V3
  norm : V3
  uv : V2
deriving DecidableEq, Repr

/-- One JTF face record: three vertices. -/
structure JtfFace where
  v0 : JtfVert
  v1 : JtfVert
  v2 : JtfVert
deriving DecidableEq, Repr

/-- Per-vertex body of the JTF face loop (fmtjtf.c:85-105): add the
position, the normal, the texcoord. -/
def jtfAddVert (m : OMesh) (v : JtfVert) : OMesh :=
  mf_add_texcoord (mf_add_normal (mf_add_vertex m v.pos) v.norm) v.uv

/-- The JTF face loop body (fmtjtf.c:79-108): three vertices, then the
triangle (vidx, vidx+1, vidx+2), vidx advancing by 3. -/
def jtfStep (st : OMesh × Nat) (f : JtfFace) : OMesh × Nat :=
  let m := jtfAddVert (jtfAddVert (jtfAddVert st.1 f.v0) f.v1) f.v2
  (mf_add_triangle m st.2 (st.2 + 1) (st.2 + 2), st.2 + 3)

/-- `mf_load_jtf` after a valid header (fmtjtf.c:69-120): the mesh is
named "jtfmesh" (fmtjtf.c:73), the node is allocated but never named,
then `mf_add_mesh` and `mf_add_node`. -/
def mf_load_jtf_model (meshes : List OMesh) (nodes : List LNode)
    (fs : List JtfFace) : Option (List OMesh × List LNode) :=
  let built := (fs.foldl jtfStep ({ newMesh with name := some "jtfmesh" }, 0)).1
  let node : LNode := { newNode with meshes := newNode.meshes ++ [built] }
  match mf_add_mesh_checked meshes built with
  | none => none
  | some ms =>
    match mf_add_node_checked nodes node with
    | none => none
    | some ns => some (ms, ns)

theorem stl_foldl_name (recs : List StlFace) :
    ∀ st : OMesh × Nat, ((recs.foldl stlStep st).1).name = st.1.name := by
  induction recs with
  | nil => intro st; rfl
  | cons r rest ih =>
    intro st
    rw [List.foldl_cons, ih]
    simp [stlStep, mf_add_triangle, mf_add_vertex, mf_add_normal]

theorem jtf_foldl_name (fs : List JtfFace) :
    ∀ st : OMesh × Nat, ((fs.foldl jtfStep st).1).name = st.1.name := by
  induction fs with
  | nil => intro st; rfl
  | cons f rest ih =>
    intro st
    rw [List.foldl_cons, ih]
    simp [jtfStep, jtfAddVert, mf_add_triangle, mf_add_texcoord,
      mf_add_normal, mf_add_vertex]

/-- C4: the claim fails for the STL and JTF loaders.  The STL loader
never names its mesh or node, so on EVERY valid binary STL input
`mf_add_mesh`'s `assert(m->name)` condition is violated; the JTF
loader names its mesh "jtfmesh" but never names its node, so on every
valid JTF input `mf_add_node`'s `assert(n->name)` condition is
violated.  Both modelled loads return `none` (the assertion fires)
for every input and every prior scene content. -/
theorem C4_loader_name_asserts :
    (∀ (ms : List OMesh) (ns : List LNode) (recs : List StlFace),
        mf_load_stl_model ms ns recs = none) ∧
    (∀ (ms : List OMesh) (ns : List LNode) (fs : List JtfFace),
        mf_load_jtf_model ms ns fs = none) := by
  constructor
  · intro ms ns recs
    have hname : ((recs.foldl stlStep (newMesh, 0)).1).name = none := by
      rw [stl_foldl_name]
      rfl
    simp [mf_load_stl_model, mf_add_mesh_checked, hname]
  · intro ms ns fs
    have hname : ((fs.foldl jtfStep ({ newMesh with name := some "jtfmesh" }, 0)).1).name
        = some "jtfmesh" := by
      rw [jtf_foldl_name]
    simp [mf_load_jtf_model, mf_add_mesh_checked, mf_add_node_checked, hname, newNode]

end Meshfile
